import Mathlib

/-!
# Saga coordinator (`saga/main.go`)

A shallow embedding of the saga coordinator of `saga/main.go` and the
properties of its specification.

Modelling decisions.

* A participant (`Service` interface) is external, side-effectful code.  Its
  three methods are state transformers over an arbitrary world `σ`; `ε` is the
  set of error values a participant can hand back, a Go `nil` error is `none`.
* Go `error` values seen by a caller of the coordinator are the participant
  errors plus the one value the coordinator builds itself with
  `errors.New("transaction is already in execute")`; the latter is a fresh
  allocation, so it is never equal to a participant's error.
* `map[string]error` is an association list with at most one entry per key;
  the `nil` map is `none`.  Reading a `nil` map works (it is empty), writing to
  it is a run-time panic.
* A run-time panic is an explicit outcome; the state reached at the moment of
  the panic is kept, since a caller may `recover`.
* Every call the coordinator makes on a participant is appended to a call log
  together with the position of the participant in `Saga.Service` and the value
  the call gave back.  The log is instrumentation only: no control flow reads it.
* `successfulTransfers` is a Go `int`; it starts at 0 and is only ever
  incremented once per participant, so it is modelled as a natural number.  This is
  exact for a saga built by `NewSaga`, whose counter never exceeds `len(Service)`
  (`afterCalls_counter_bounded`, `configAt_counter_bounded`); it is not exact for a
  coordinator state whose counter is near the end of the range of `int`, where the Go
  increment wraps, and the properties of the counter are stated for sagas built by
  `NewSaga` only.
* The compare-and-swap on `isExecutable` is modelled for one thread of control.
* Properties of the states in the middle of a call are stated on `step`, which runs the
  same loops one turn at a time; `configAt_reaches` shows that the turns of a call end in
  the result that `ExecuteTransaction` computes.
-/

namespace SagaCoordinator

/-- A participant: `type Service interface { Transaction() error; Compensate() error; GetName() string }`. -/
structure Service (σ ε : Type) where
  Transaction : σ → Option ε × σ
  Compensate : σ → Option ε × σ
  GetName : σ → String × σ

/-- Go `error` values that `ExecuteTransaction` can return. -/
inductive Error (ε : Type) where
  /-- the value of `errors.New("transaction is already in execute")` -/
  | alreadyInExecute : Error ε
  /-- an error value handed back by a participant, unchanged -/
  | service : ε → Error ε
  deriving DecidableEq, Repr

/-- Run-time panics of the Go runtime that the coordinator can raise. -/
inductive Fault where
  /-- `assignment to entry in nil map` -/
  | nilMapWrite : Fault
  /-- `index out of range` -/
  | indexOutOfRange : Fault
  deriving DecidableEq, Repr

/-- One call made by the coordinator on the participant at position `i`, with its result. -/
inductive Call (ε : Type) where
  | transaction : Nat → Option ε → Call ε
  | compensate : Nat → Option ε → Call ε
  | getName : Nat → String → Call ε
  deriving DecidableEq, Repr

/-- A Go `map[string]error`; `none` is the `nil` map. -/
abbrev ErrorMap (ε : Type) := Option (List (String × Error ε))

/-- Go `len(m)`: a `nil` map has length 0. -/
def ErrorMap.len {ε : Type} : ErrorMap ε → Nat
  | none => 0
  | some m => m.length

/-- Go `m[k]` read with the comma-ok form; reading a `nil` map finds nothing. -/
def ErrorMap.get {ε : Type} (m : ErrorMap ε) (k : String) : Option (Error ε) :=
  match m with
  | none => none
  | some l => (l.find? (fun kv => kv.1 == k)).map (fun kv => kv.2)

/-- Go `m[k] = v` on a non-`nil` map: replaces the entry of `k` or adds one. -/
def mapAssign {ε : Type} (l : List (String × Error ε)) (k : String) (v : Error ε) :
    List (String × Error ε) :=
  if l.any (fun kv => kv.1 == k) then
    l.map (fun kv => if kv.1 == k then (k, v) else kv)
  else
    l ++ [(k, v)]

/-- The coordinator: `type Saga struct { Service; isExecutable; successfulTransfers; errors }`. -/
structure Saga (σ ε : Type) where
  Service : List (Service σ ε)
  isExecutable : Bool
  successfulTransfers : Nat
  errors : ErrorMap ε

/-- Everything outside the coordinator: the world the participants act on, and the call log. -/
structure Env (σ ε : Type) where
  world : σ
  calls : List (Call ε)

/-- An environment in which the coordinator has not called anything yet. -/
def Env.init {σ ε : Type} (w : σ) : Env σ ε := ⟨w, []⟩

/-- How a call of `ExecuteTransaction` ends. -/
inductive Outcome (ε : Type) where
  /-- normal return, with the returned `error` (`none` is `nil`) -/
  | returned : Option (Error ε) → Outcome ε
  /-- the call does not return: a run-time panic unwinds it -/
  | panicked : Fault → Outcome ε
  deriving DecidableEq, Repr

/-- Result of running a coordinator method: outcome, coordinator state, environment. -/
structure Result (σ ε : Type) where
  outcome : Outcome ε
  saga : Saga σ ε
  env : Env σ ε

/-- Constructor `func NewSaga(service ...Service) *Saga`: only `Service` is set, the other
fields keep their zero values (`false`, `0`, `nil`). -/
def NewSaga {σ ε : Type} (service : List (Service σ ε)) : Saga σ ε :=
  { Service := service, isExecutable := false, successfulTransfers := 0, errors := none }

/-- The loop of `func (s *Saga) compensate()`, entered with loop variable `i`:
`for ; i > 0; i-- { if err := s.Service[i].Compensate(); err != nil { s.errors[s.Service[i].GetName()] = err } }`.
The result is `none` when the loop runs to its end and the fault otherwise.
In the assignment the operand `s.Service[i].GetName()` is evaluated before the
map is written, so the call is made even when the write panics. -/
def compensateLoop {σ ε : Type} : Nat → Saga σ ε → Env σ ε → Option Fault × Saga σ ε × Env σ ε
  | 0, s, env => (none, s, env)
  | i + 1, s, env =>
    match s.Service[i + 1]? with
    | none => (some Fault.indexOutOfRange, s, env)
    | some svc =>
      let r := svc.Compensate env.world
      let env1 : Env σ ε := ⟨r.2, env.calls ++ [Call.compensate (i + 1) r.1]⟩
      match r.1 with
      | none => compensateLoop i s env1
      | some err =>
        let nm := svc.GetName env1.world
        let env2 : Env σ ε := ⟨nm.2, env1.calls ++ [Call.getName (i + 1) nm.1]⟩
        match s.errors with
        | none => (some Fault.nilMapWrite, s, env2)
        | some m =>
          compensateLoop i { s with errors := some (mapAssign m nm.1 (Error.service err)) } env2

/-- Method `func (s *Saga) compensate()`: the loop starts at `i := s.successfulTransfers`. -/
def compensate {σ ε : Type} (s : Saga σ ε) (env : Env σ ε) : Option Fault × Saga σ ε × Env σ ε :=
  compensateLoop s.successfulTransfers s env

/-- The `for _, service := range s.Service` loop of `ExecuteTransaction` over the
participants still to visit; `idx` is the position of the first of them (used
for the call log only).  `s.successfulTransfers++` is the increment of a natural number: it
agrees with the increment of the Go `int` while the counter is below the largest `int`, as
it is on every saga built by `NewSaga`. -/
def forwardLoop {σ ε : Type} : List (Service σ ε) → Nat → Saga σ ε → Env σ ε → Result σ ε
  | [], _, s, env => ⟨Outcome.returned none, s, env⟩
  | service :: rest, idx, s, env =>
    let r := service.Transaction env.world
    let env1 : Env σ ε := ⟨r.2, env.calls ++ [Call.transaction idx r.1]⟩
    match r.1 with
    | some err =>
      match compensate s env1 with
      | (some f, s1, env2) => ⟨Outcome.panicked f, s1, env2⟩
      | (none, s1, env2) => ⟨Outcome.returned (some (Error.service err)), s1, env2⟩
    | none =>
      forwardLoop rest (idx + 1) { s with successfulTransfers := s.successfulTransfers + 1 } env1

/-- Method `func (s *Saga) ExecuteTransaction() error`: the compare-and-swap of
`isExecutable` from `false` to `true` either rejects the call or lets the forward loop run. -/
def ExecuteTransaction {σ ε : Type} (s : Saga σ ε) (env : Env σ ε) : Result σ ε :=
  if s.isExecutable then
    ⟨Outcome.returned (some Error.alreadyInExecute), s, env⟩
  else
    forwardLoop s.Service 0 { s with isExecutable := true } env

/-- Method `func (s *Saga) GetErrors() map[string]error`. -/
def GetErrors {σ ε : Type} (s : Saga σ ε) : ErrorMap ε := s.errors

/-! ## Vocabulary of the specification -/

/-- Results of the participants' `Transaction` calls when each participant of the
sequence is invoked once, in construction order, starting in world `w`. -/
def transactionResults {σ ε : Type} : List (Service σ ε) → σ → List (Option ε)
  | [], _ => []
  | p :: ps, w => (p.Transaction w).1 :: transactionResults ps (p.Transaction w).2

/-- World reached from `w` once the first `j` participants' `Transaction` calls have been made. -/
def worldAfter {σ ε : Type} : List (Service σ ε) → σ → Nat → σ
  | _, w, 0 => w
  | [], w, _ + 1 => w
  | p :: ps, w, j + 1 => worldAfter ps (p.Transaction w).2 j

/-- Forward failure at step `k`: `P[0..k-1].Transaction` succeed and `P[k].Transaction`
fails with error `e`, so `P[k]` is the first participant whose `Transaction` fails. -/
def FirstFailure {σ ε : Type} (P : List (Service σ ε)) (w : σ) (k : Nat) (e : ε) : Prop :=
  (transactionResults P w)[k]? = some (some e) ∧
    ∀ j, j < k → (transactionResults P w)[j]? = some none

instance {σ ε : Type} [DecidableEq ε] (P : List (Service σ ε)) (w : σ) (k : Nat) (e : ε) :
    Decidable (FirstFailure P w k e) := by
  unfold FirstFailure
  exact inferInstance

/-- Every participant's `Transaction` succeeds. -/
def AllSucceed {σ ε : Type} (P : List (Service σ ε)) (w : σ) : Prop :=
  ∀ r, r ∈ transactionResults P w → r = none

instance {σ ε : Type} [DecidableEq ε] (P : List (Service σ ε)) (w : σ) :
    Decidable (AllSucceed P w) := by
  unfold AllSucceed
  exact inferInstance

/-- Positions on which `Transaction` was called, in call order. -/
def transactionCalls {ε : Type} (calls : List (Call ε)) : List Nat :=
  calls.filterMap (fun c => match c with
    | Call.transaction i _ => some i
    | _ => none)

/-- Positions on which `Compensate` was called, in call order. -/
def compensateCalls {ε : Type} (calls : List (Call ε)) : List Nat :=
  calls.filterMap (fun c => match c with
    | Call.compensate i _ => some i
    | _ => none)

/-- Call log of a forward drive whose first failure is at step `k`, with error `e`:
`P[0].Transaction, ..., P[k-1].Transaction` succeed, then `P[k].Transaction` fails. -/
def forwardCalls {ε : Type} (k : Nat) (e : ε) : List (Call ε) :=
  (List.range k).map (fun j => Call.transaction j none) ++ [Call.transaction k (some e)]

/-- Environment of the first run at the moment the failing `P[k].Transaction` has returned. -/
def failureEnv {σ ε : Type} (P : List (Service σ ε)) (w : σ) (k : Nat) (e : ε) : Env σ ε :=
  ⟨worldAfter P w (k + 1), forwardCalls k e⟩

/-- Coordinator state of the first run at the moment the failing `P[k].Transaction` has
returned: the flag is set, `k` successes are counted, the map is still `nil`. -/
def failureSaga {σ ε : Type} (P : List (Service σ ε)) (k : Nat) : Saga σ ε :=
  { Service := P, isExecutable := true, successfulTransfers := k, errors := none }

/-- The first `ExecuteTransaction` on `NewSaga(P...)`, the participants being in world `w`. -/
def firstRun {σ ε : Type} (P : List (Service σ ε)) (w : σ) : Result σ ε :=
  ExecuteTransaction (NewSaga P) (Env.init w)

/-- The state after `n` further calls of `ExecuteTransaction`, one after the other. -/
def executeAgain {σ ε : Type} : Nat → Saga σ ε × Env σ ε → Saga σ ε × Env σ ε
  | 0, st => st
  | n + 1, st =>
    let r := ExecuteTransaction st.1 st.2
    executeAgain n (r.saga, r.env)

/-- The saga built by `NewSaga(P...)` and its environment after `m` calls of
`ExecuteTransaction` in all, the participants starting in world `w`. -/
def afterCalls {σ ε : Type} (P : List (Service σ ε)) (w : σ) (m : Nat) : Saga σ ε × Env σ ε :=
  executeAgain m (NewSaga P, Env.init w)

/-! ## Participants of the specification's scenarios -/

/-- A participant without state of its own: it is called `name`, its `Transaction`
always gives `tx` and its `Compensate` always gives `undo`. -/
def scripted (name : String) (tx undo : Option String) : Service Unit String :=
  { Transaction := fun w => (tx, w)
    Compensate := fun w => (undo, w)
    GetName := fun w => (name, w) }

/-- Scenario 2: `[A, B, C]` where `C.do` fails with "boom" and every `undo` succeeds. -/
def scenarioThirdFails : List (Service Unit String) :=
  [scripted "A" none none, scripted "B" none none, scripted "C" (some "boom") none]

/-- Scenario 3: as scenario 2, but `B.undo` fails with "undo-boom". -/
def scenarioDirtyRollback : List (Service Unit String) :=
  [scripted "A" none none, scripted "B" none (some "undo-boom"), scripted "C" (some "boom") none]

/-- Scenario 1: `[A, B, C]`, every `do` succeeds. -/
def scenarioThreeSuccesses : List (Service Unit String) :=
  [scripted "A" none none, scripted "B" none none, scripted "C" none none]

/-- Scenario 4: `[A, B]` where `A.do` fails with "nope". -/
def scenarioFirstFails : List (Service Unit String) :=
  [scripted "A" (some "nope") none, scripted "B" none none]

/-- Two participants, the second of which fails: `[A, B]` where `B.do` fails with "boom". -/
def scenarioSecondFails : List (Service Unit String) :=
  [scripted "A" none none, scripted "B" (some "boom") none]

/-- Scenario 2 with a failing `undo` on the failing participant: `[A, B, C]` where `C.do`
fails with "boom" and `C.undo` fails with "undo-boom". -/
def scenarioFailedUndoOnTop : List (Service Unit String) :=
  [scripted "A" none none, scripted "B" none none, scripted "C" (some "boom") (some "undo-boom")]

/-! ## Vocabulary for the behaviour of the loops -/

/-- The indices `i, i-1, ..., 1`, in that order. -/
def countdown : Nat → List Nat
  | 0 => []
  | i + 1 => (i + 1) :: countdown i

/-- Control points of one call of `ExecuteTransaction`, between two turns of its loops. -/
inductive Config (σ ε : Type) where
  /-- at the head of the `range` loop: the participants still to visit, the position of the
  first of them, the coordinator and the environment -/
  | forward : List (Service σ ε) → Nat → Saga σ ε → Env σ ε → Config σ ε
  /-- at the loop test of `compensate`: the loop variable `i`, the error of the failed
  `Transaction` (to be returned after `compensate`), the coordinator and the environment -/
  | compensating : Nat → ε → Saga σ ε → Env σ ε → Config σ ε
  /-- the call is over, by a return or by a panic -/
  | finished : Result σ ε → Config σ ε

/-- The coordinator at a control point. -/
def Config.saga {σ ε : Type} : Config σ ε → Saga σ ε
  | Config.forward _ _ s _ => s
  | Config.compensating _ _ s _ => s
  | Config.finished r => r.saga

/-- The next turn is a turn of the `range` loop whose `Transaction` call succeeds. -/
def Config.transactionSucceeds {σ ε : Type} : Config σ ε → Bool
  | Config.forward (service :: _) _ _ env => (service.Transaction env.world).1.isNone
  | _ => false

/-- The control point is inside `compensate`. -/
def Config.inCompensate {σ ε : Type} : Config σ ε → Bool
  | Config.compensating _ _ _ _ => true
  | _ => false

/-- The index `i` with which the next turn evaluates `s.Service[i]`, if it evaluates it:
the loop variable of `compensate` when the loop test `i > 0` passes. -/
def Config.indexUsed {σ ε : Type} : Config σ ε → Option Nat
  | Config.compensating (i + 1) _ _ _ => some (i + 1)
  | _ => none

/-- One turn of a loop of `ExecuteTransaction`: the body of the `range` loop (lines 36-41)
from `forward`, the loop test and body of `compensate` (lines 48-52) from `compensating`;
when a loop ends the call ends, with `return nil` (line 44) or `return err` (line 38).
The increment of the counter is that of `forwardLoop`, exact on sagas built by `NewSaga`. -/
def step {σ ε : Type} : Config σ ε → Config σ ε
  | Config.forward [] _ s env => Config.finished ⟨Outcome.returned none, s, env⟩
  | Config.forward (service :: rest) idx s env =>
    let r := service.Transaction env.world
    let env1 : Env σ ε := ⟨r.2, env.calls ++ [Call.transaction idx r.1]⟩
    match r.1 with
    | some err => Config.compensating s.successfulTransfers err s env1
    | none =>
      Config.forward rest (idx + 1)
        { s with successfulTransfers := s.successfulTransfers + 1 } env1
  | Config.compensating 0 err s env =>
    Config.finished ⟨Outcome.returned (some (Error.service err)), s, env⟩
  | Config.compensating (i + 1) err s env =>
    match s.Service[i + 1]? with
    | none => Config.finished ⟨Outcome.panicked Fault.indexOutOfRange, s, env⟩
    | some svc =>
      let r := svc.Compensate env.world
      let env1 : Env σ ε := ⟨r.2, env.calls ++ [Call.compensate (i + 1) r.1]⟩
      match r.1 with
      | none => Config.compensating i err s env1
      | some cerr =>
        let nm := svc.GetName env1.world
        let env2 : Env σ ε := ⟨nm.2, env1.calls ++ [Call.getName (i + 1) nm.1]⟩
        match s.errors with
        | none => Config.finished ⟨Outcome.panicked Fault.nilMapWrite, s, env2⟩
        | some m =>
          Config.compensating i err
            { s with errors := some (mapAssign m nm.1 (Error.service cerr)) } env2
  | Config.finished r => Config.finished r

/-- Invariant of the control points of a call that starts with a success counter of 0: at
the head of the `range` loop the counter is the number of participants already visited; in
`compensate` the loop variable is at most the counter, and the counter is a position of the
slice. -/
def Config.wellIndexed {σ ε : Type} : Config σ ε → Prop
  | Config.forward rest _ s _ =>
    ∃ visited, s.Service = visited ++ rest ∧ s.successfulTransfers = visited.length
  | Config.compensating i _ s _ =>
    i ≤ s.successfulTransfers ∧ s.successfulTransfers < s.Service.length
  | Config.finished _ => True

/-- Control point at which a call of `ExecuteTransaction` stands once the compare-and-swap
of `isExecutable` is done: rejected, or at the head of the `range` loop with the flag set. -/
def entry {σ ε : Type} (s : Saga σ ε) (env : Env σ ε) : Config σ ε :=
  if s.isExecutable then
    Config.finished ⟨Outcome.returned (some Error.alreadyInExecute), s, env⟩
  else
    Config.forward s.Service 0 { s with isExecutable := true } env

/-- Control point of the call `ExecuteTransaction` on `s` after `n` loop turns. -/
def configAt {σ ε : Type} (s : Saga σ ε) (env : Env σ ε) : Nat → Config σ ε
  | 0 => entry s env
  | n + 1 => step (configAt s env n)

/-! ## The compensation loop -/

section CompensateLoop

variable {σ ε : Type}

/-- One turn of the compensation loop whose `Compensate` call succeeds. -/
theorem compensateLoop_succ_ok (i : Nat) (s : Saga σ ε) (env : Env σ ε) (svc : Service σ ε)
    (hsvc : s.Service[i + 1]? = some svc) (hr : (svc.Compensate env.world).1 = none) :
    compensateLoop (i + 1) s env =
      compensateLoop i s
        ⟨(svc.Compensate env.world).2, env.calls ++ [Call.compensate (i + 1) none]⟩ := by
  rw [compensateLoop, hsvc]
  simp only [hr]

/-- One turn of the compensation loop whose `Compensate` call fails while the map is `nil`. -/
theorem compensateLoop_succ_nil (i : Nat) (s : Saga σ ε) (env : Env σ ε) (svc : Service σ ε)
    (err : ε) (hsvc : s.Service[i + 1]? = some svc)
    (hr : (svc.Compensate env.world).1 = some err) (hm : s.errors = none) :
    compensateLoop (i + 1) s env =
      (some Fault.nilMapWrite, s,
        ⟨(svc.GetName (svc.Compensate env.world).2).2,
          env.calls ++ [Call.compensate (i + 1) (some err)] ++
            [Call.getName (i + 1) (svc.GetName (svc.Compensate env.world).2).1]⟩) := by
  rw [compensateLoop, hsvc]
  simp only [hr, hm]

/-- One turn of the compensation loop whose `Compensate` call fails while the map is allocated. -/
theorem compensateLoop_succ_record (i : Nat) (s : Saga σ ε) (env : Env σ ε) (svc : Service σ ε)
    (err : ε) (m : List (String × Error ε)) (hsvc : s.Service[i + 1]? = some svc)
    (hr : (svc.Compensate env.world).1 = some err) (hm : s.errors = some m) :
    compensateLoop (i + 1) s env =
      compensateLoop i
        { s with errors := some (mapAssign m (svc.GetName (svc.Compensate env.world).2).1
            (Error.service err)) }
        ⟨(svc.GetName (svc.Compensate env.world).2).2,
          env.calls ++ [Call.compensate (i + 1) (some err)] ++
            [Call.getName (i + 1) (svc.GetName (svc.Compensate env.world).2).1]⟩ := by
  rw [compensateLoop, hsvc]
  simp only [hr, hm]

/-- One turn of the compensation loop whose index is outside the slice. -/
theorem compensateLoop_succ_range (i : Nat) (s : Saga σ ε) (env : Env σ ε)
    (hsvc : s.Service[i + 1]? = none) :
    compensateLoop (i + 1) s env = (some Fault.indexOutOfRange, s, env) := by
  rw [compensateLoop, hsvc]

/-- The compensation loop writes no field of the coordinator but `errors`. -/
theorem compensateLoop_frame (i : Nat) : ∀ (s : Saga σ ε) (env : Env σ ε),
    (compensateLoop i s env).2.1.Service = s.Service ∧
    (compensateLoop i s env).2.1.isExecutable = s.isExecutable ∧
    (compensateLoop i s env).2.1.successfulTransfers = s.successfulTransfers := by
  induction i with
  | zero => intro s env; exact ⟨rfl, rfl, rfl⟩
  | succ i ih =>
    intro s env
    cases hsvc : s.Service[i + 1]? with
    | none => rw [compensateLoop_succ_range i s env hsvc]; exact ⟨rfl, rfl, rfl⟩
    | some svc =>
      cases hr : (svc.Compensate env.world).1 with
      | none => rw [compensateLoop_succ_ok i s env svc hsvc hr]; exact ih _ _
      | some err =>
        cases hm : s.errors with
        | none => rw [compensateLoop_succ_nil i s env svc err hsvc hr hm]; exact ⟨rfl, rfl, rfl⟩
        | some m => rw [compensateLoop_succ_record i s env svc err m hsvc hr hm]; exact ih _ _

/-- While the map is `nil` the compensation loop leaves the whole coordinator as it was. -/
theorem compensateLoop_nil_map (i : Nat) : ∀ (s : Saga σ ε) (env : Env σ ε),
    s.errors = none → (compensateLoop i s env).2.1 = s := by
  induction i with
  | zero => intro s env _; rfl
  | succ i ih =>
    intro s env hm
    cases hsvc : s.Service[i + 1]? with
    | none => rw [compensateLoop_succ_range i s env hsvc]
    | some svc =>
      cases hr : (svc.Compensate env.world).1 with
      | none => rw [compensateLoop_succ_ok i s env svc hsvc hr]; exact ih _ _ hm
      | some err => rw [compensateLoop_succ_nil i s env svc err hsvc hr hm]

/-- The compensation loop only appends to the call log, and appends no `Transaction` call. -/
theorem compensateLoop_calls (i : Nat) : ∀ (s : Saga σ ε) (env : Env σ ε),
    ∃ ext, (compensateLoop i s env).2.2.calls = env.calls ++ ext ∧ transactionCalls ext = [] := by
  induction i with
  | zero => intro s env; exact ⟨[], by simp [compensateLoop], rfl⟩
  | succ i ih =>
    intro s env
    cases hsvc : s.Service[i + 1]? with
    | none =>
      rw [compensateLoop_succ_range i s env hsvc]
      exact ⟨[], by simp, rfl⟩
    | some svc =>
      cases hr : (svc.Compensate env.world).1 with
      | none =>
        rw [compensateLoop_succ_ok i s env svc hsvc hr]
        obtain ⟨ext, h1, h2⟩ := ih s
          ⟨(svc.Compensate env.world).2, env.calls ++ [Call.compensate (i + 1) none]⟩
        refine ⟨Call.compensate (i + 1) none :: ext, ?_, ?_⟩
        · rw [h1]; simp
        · simpa [transactionCalls] using h2
      | some err =>
        cases hm : s.errors with
        | none =>
          rw [compensateLoop_succ_nil i s env svc err hsvc hr hm]
          exact ⟨[Call.compensate (i + 1) (some err),
            Call.getName (i + 1) (svc.GetName (svc.Compensate env.world).2).1], by simp, rfl⟩
        | some m =>
          rw [compensateLoop_succ_record i s env svc err m hsvc hr hm]
          obtain ⟨ext, h1, h2⟩ := ih
            { s with errors := some (mapAssign m (svc.GetName (svc.Compensate env.world).2).1
                (Error.service err)) }
            ⟨(svc.GetName (svc.Compensate env.world).2).2,
              env.calls ++ [Call.compensate (i + 1) (some err)] ++
                [Call.getName (i + 1) (svc.GetName (svc.Compensate env.world).2).1]⟩
          refine ⟨Call.compensate (i + 1) (some err) ::
            Call.getName (i + 1) (svc.GetName (svc.Compensate env.world).2).1 :: ext, ?_, ?_⟩
          · rw [h1]; simp
          · simpa [transactionCalls] using h2

/-- If every `Compensate` call in the log left by the compensation loop succeeded, and the
loop started inside the slice, the loop ran to its end and wrote nothing. -/
theorem compensateLoop_clean (i : Nat) : ∀ (s : Saga σ ε) (env : Env σ ε),
    i < s.Service.length →
    (∀ j r, Call.compensate j r ∈ (compensateLoop i s env).2.2.calls → r = none) →
    (compensateLoop i s env).1 = none ∧ (compensateLoop i s env).2.1 = s := by
  induction i with
  | zero => intro s env _ _; exact ⟨rfl, rfl⟩
  | succ i ih =>
    intro s env hlt hall
    cases hsvc : s.Service[i + 1]? with
    | none =>
      rw [List.getElem?_eq_none_iff] at hsvc
      omega
    | some svc =>
      cases hr : (svc.Compensate env.world).1 with
      | none =>
        rw [compensateLoop_succ_ok i s env svc hsvc hr] at hall ⊢
        exact ih s _ (by omega) hall
      | some err =>
        exfalso
        have hmem : Call.compensate (i + 1) (some err) ∈ (compensateLoop (i + 1) s env).2.2.calls := by
          cases hm : s.errors with
          | none =>
            rw [compensateLoop_succ_nil i s env svc err hsvc hr hm]
            simp
          | some m =>
            rw [compensateLoop_succ_record i s env svc err m hsvc hr hm]
            obtain ⟨ext, h1, _⟩ := compensateLoop_calls i
              { s with errors := some (mapAssign m (svc.GetName (svc.Compensate env.world).2).1
                  (Error.service err)) }
              ⟨(svc.GetName (svc.Compensate env.world).2).2,
                env.calls ++ [Call.compensate (i + 1) (some err)] ++
                  [Call.getName (i + 1) (svc.GetName (svc.Compensate env.world).2).1]⟩
            rw [h1]
            simp
        exact absurd (hall _ _ hmem) (by simp)

end CompensateLoop

/-! ## The forward loop -/

section ForwardLoop

variable {σ ε : Type}

/-- Before any `Transaction` call the world is the initial one. -/
theorem worldAfter_zero (P : List (Service σ ε)) (w : σ) : worldAfter P w 0 = w := by
  cases P <;> rfl

/-- The world after `j + 1` calls is the world after `j` calls of the remaining participants. -/
theorem worldAfter_cons_succ (p : Service σ ε) (ps : List (Service σ ε)) (w : σ) (j : Nat) :
    worldAfter (p :: ps) w (j + 1) = worldAfter ps (p.Transaction w).2 j := rfl

/-- An empty sequence has no failing participant. -/
theorem firstFailure_nil (w : σ) (k : Nat) (e : ε) :
    ¬ FirstFailure ([] : List (Service σ ε)) w k e := by
  intro h
  simp [FirstFailure, transactionResults] at h

/-- A first failure at step 0 means the head participant fails. -/
theorem firstFailure_cons_zero (p : Service σ ε) (ps : List (Service σ ε)) (w : σ) (e : ε) :
    FirstFailure (p :: ps) w 0 e ↔ (p.Transaction w).1 = some e := by
  simp [FirstFailure, transactionResults]

/-- A first failure at step `k + 1` means the head succeeds and the tail first fails at step `k`. -/
theorem firstFailure_cons_succ (p : Service σ ε) (ps : List (Service σ ε)) (w : σ) (k : Nat)
    (e : ε) :
    FirstFailure (p :: ps) w (k + 1) e ↔
      (p.Transaction w).1 = none ∧ FirstFailure ps (p.Transaction w).2 k e := by
  unfold FirstFailure
  simp only [transactionResults, List.getElem?_cons_succ]
  constructor
  · rintro ⟨hk, hlt⟩
    refine ⟨?_, hk, ?_⟩
    · simpa using hlt 0 (Nat.succ_pos k)
    · intro j hj
      simpa using hlt (j + 1) (Nat.succ_lt_succ hj)
  · rintro ⟨h0, hk, hlt⟩
    refine ⟨hk, ?_⟩
    intro j hj
    cases j with
    | zero => simp [h0]
    | succ j => simpa using hlt j (Nat.lt_of_succ_lt_succ hj)

/-- The failing step is a position of the sequence. -/
theorem firstFailure_lt_length (P : List (Service σ ε)) : ∀ (w : σ) (k : Nat) (e : ε),
    FirstFailure P w k e → k < P.length := by
  induction P with
  | nil => intro w k e h; exact absurd h (firstFailure_nil w k e)
  | cons p ps ih =>
    intro w k e h
    cases k with
    | zero => simp
    | succ k =>
      have := ih _ k e ((firstFailure_cons_succ p ps w k e).1 h).2
      simpa using this

/-- All succeed when the head succeeds and then all of the tail succeed. -/
theorem allSucceed_cons (p : Service σ ε) (ps : List (Service σ ε)) (w : σ) :
    AllSucceed (p :: ps) w ↔ (p.Transaction w).1 = none ∧ AllSucceed ps (p.Transaction w).2 := by
  simp [AllSucceed, transactionResults]

/-- One turn of the forward loop whose `Transaction` call succeeds. -/
theorem forwardLoop_cons_ok (p : Service σ ε) (ps : List (Service σ ε)) (idx : Nat)
    (s : Saga σ ε) (env : Env σ ε) (hr : (p.Transaction env.world).1 = none) :
    forwardLoop (p :: ps) idx s env =
      forwardLoop ps (idx + 1) { s with successfulTransfers := s.successfulTransfers + 1 }
        ⟨(p.Transaction env.world).2, env.calls ++ [Call.transaction idx none]⟩ := by
  rw [forwardLoop]
  simp only [hr]

/-- One turn of the forward loop whose `Transaction` call fails: `compensate` runs, then the
error is returned unless `compensate` panicked. -/
theorem forwardLoop_cons_fail (p : Service σ ε) (ps : List (Service σ ε)) (idx : Nat)
    (s : Saga σ ε) (env : Env σ ε) (err : ε) (hr : (p.Transaction env.world).1 = some err) :
    forwardLoop (p :: ps) idx s env =
      ⟨(compensate s ⟨(p.Transaction env.world).2,
            env.calls ++ [Call.transaction idx (some err)]⟩).1.elim
          (Outcome.returned (some (Error.service err))) Outcome.panicked,
        (compensate s ⟨(p.Transaction env.world).2,
            env.calls ++ [Call.transaction idx (some err)]⟩).2.1,
        (compensate s ⟨(p.Transaction env.world).2,
            env.calls ++ [Call.transaction idx (some err)]⟩).2.2⟩ := by
  rw [forwardLoop]
  simp only [hr]
  generalize compensate s _ = c
  rcases c with ⟨_ | f, s1, env2⟩ <;> rfl

/-- Mapping over `0..k` is the image of 0 followed by the shifted map over `0..k-1`. -/
theorem range_map_shift {α : Type} (f : Nat → α) (k : Nat) :
    (List.range (k + 1)).map f = f 0 :: (List.range k).map (fun j => f (j + 1)) := by
  rw [List.range_succ_eq_map, List.map_cons, List.map_map]
  rfl

/-- The forward loop under a forward failure at step `k`: the first `k` participants'
`Transaction` calls succeed and are counted, the next one fails, and `compensate` is entered
with the counter advanced by `k`. -/
theorem forwardLoop_firstFailure (l : List (Service σ ε)) :
    ∀ (k idx : Nat) (s : Saga σ ε) (w : σ) (cs : List (Call ε)) (e : ε),
    FirstFailure l w k e →
    forwardLoop l idx s ⟨w, cs⟩ =
      ⟨(compensate { s with successfulTransfers := s.successfulTransfers + k }
          ⟨worldAfter l w (k + 1),
            cs ++ ((List.range k).map (fun j => Call.transaction (idx + j) none) ++
              [Call.transaction (idx + k) (some e)])⟩).1.elim
          (Outcome.returned (some (Error.service e))) Outcome.panicked,
        (compensate { s with successfulTransfers := s.successfulTransfers + k }
          ⟨worldAfter l w (k + 1),
            cs ++ ((List.range k).map (fun j => Call.transaction (idx + j) none) ++
              [Call.transaction (idx + k) (some e)])⟩).2.1,
        (compensate { s with successfulTransfers := s.successfulTransfers + k }
          ⟨worldAfter l w (k + 1),
            cs ++ ((List.range k).map (fun j => Call.transaction (idx + j) none) ++
              [Call.transaction (idx + k) (some e)])⟩).2.2⟩ := by
  induction l with
  | nil => intro k idx s w cs e h; exact absurd h (firstFailure_nil w k e)
  | cons p ps ih =>
    intro k idx s w cs e h
    cases k with
    | zero =>
      have hr : (p.Transaction w).1 = some e := (firstFailure_cons_zero p ps w e).1 h
      rw [forwardLoop_cons_fail p ps idx s ⟨w, cs⟩ e hr]
      simp [worldAfter_cons_succ, worldAfter_zero]
    | succ k =>
      obtain ⟨hr, hrest⟩ := (firstFailure_cons_succ p ps w k e).1 h
      rw [forwardLoop_cons_ok p ps idx s ⟨w, cs⟩ hr, ih k (idx + 1) _ _ _ e hrest]
      have hcalls : cs ++ [Call.transaction idx none] ++
          ((List.range k).map (fun j => Call.transaction (idx + 1 + j) (none : Option ε)) ++
            [Call.transaction (idx + 1 + k) (some e)]) =
          cs ++ ((List.range (k + 1)).map (fun j => Call.transaction (idx + j) none) ++
            [Call.transaction (idx + (k + 1)) (some e)]) := by
        rw [range_map_shift]
        simp [Nat.add_assoc, Nat.add_comm 1]
      have hcount : s.successfulTransfers + 1 + k = s.successfulTransfers + (k + 1) := by omega
      simp only [worldAfter_cons_succ, hcalls, hcount]

/-- The forward loop when every `Transaction` call succeeds. -/
theorem forwardLoop_allSucceed (l : List (Service σ ε)) :
    ∀ (idx : Nat) (s : Saga σ ε) (w : σ) (cs : List (Call ε)),
    AllSucceed l w →
    forwardLoop l idx s ⟨w, cs⟩ =
      ⟨Outcome.returned none,
        { s with successfulTransfers := s.successfulTransfers + l.length },
        ⟨worldAfter l w l.length,
          cs ++ (List.range l.length).map (fun j => Call.transaction (idx + j) none)⟩⟩ := by
  induction l with
  | nil => intro idx s w cs _; simp [forwardLoop, worldAfter_zero]
  | cons p ps ih =>
    intro idx s w cs h
    obtain ⟨hr, hrest⟩ := (allSucceed_cons p ps w).1 h
    rw [forwardLoop_cons_ok p ps idx s ⟨w, cs⟩ hr, ih (idx + 1) _ _ _ hrest]
    have hcalls : cs ++ [Call.transaction idx none] ++
        (List.range ps.length).map (fun j => Call.transaction (idx + 1 + j) (none : Option ε)) =
        cs ++ (List.range (ps.length + 1)).map (fun j => Call.transaction (idx + j) none) := by
      rw [range_map_shift]
      simp [Nat.add_assoc, Nat.add_comm 1]
    have hcount : s.successfulTransfers + 1 + ps.length
        = s.successfulTransfers + (ps.length + 1) := by omega
    simp only [worldAfter_cons_succ, hcalls, hcount, List.length_cons]

end ForwardLoop

/-! ## `ExecuteTransaction` -/

section Execute

variable {σ ε : Type}

/-- The first run passes the compare-and-swap and enters the forward loop with the flag set. -/
theorem firstRun_eq_forwardLoop (P : List (Service σ ε)) (w : σ) :
    firstRun P w = forwardLoop P 0 { NewSaga P with isExecutable := true } ⟨w, []⟩ := rfl

/-- The first run under a forward failure at step `k`: it is `compensate`, entered with
loop variable `k`, that decides how the call ends. -/
theorem firstRun_firstFailure (P : List (Service σ ε)) (w : σ) (k : Nat) (e : ε)
    (h : FirstFailure P w k e) :
    firstRun P w =
      ⟨(compensateLoop k (failureSaga P k) (failureEnv P w k e)).1.elim
          (Outcome.returned (some (Error.service e))) Outcome.panicked,
        (compensateLoop k (failureSaga P k) (failureEnv P w k e)).2.1,
        (compensateLoop k (failureSaga P k) (failureEnv P w k e)).2.2⟩ := by
  rw [firstRun_eq_forwardLoop, forwardLoop_firstFailure P k 0 _ w [] e h]
  simp [compensate, NewSaga, failureSaga, failureEnv, forwardCalls]

/-- A call made while the executed-flag is set is rejected and touches nothing. -/
theorem ExecuteTransaction_rejected (s : Saga σ ε) (env : Env σ ε) (h : s.isExecutable = true) :
    ExecuteTransaction s env = ⟨Outcome.returned (some Error.alreadyInExecute), s, env⟩ := by
  simp [ExecuteTransaction, h]

/-- The forward loop does not write the executed-flag, whichever way it ends. -/
theorem forwardLoop_isExecutable (l : List (Service σ ε)) :
    ∀ (idx : Nat) (s : Saga σ ε) (env : Env σ ε),
    (forwardLoop l idx s env).saga.isExecutable = s.isExecutable := by
  induction l with
  | nil => intro idx s env; rfl
  | cons p ps ih =>
    intro idx s env
    cases hr : (p.Transaction env.world).1 with
    | none => rw [forwardLoop_cons_ok p ps idx s env hr, ih]
    | some err =>
      rw [forwardLoop_cons_fail p ps idx s env err hr]
      exact (compensateLoop_frame _ _ _).2.1

/-- The forward loop never returns the already-executed error. -/
theorem forwardLoop_outcome (l : List (Service σ ε)) :
    ∀ (idx : Nat) (s : Saga σ ε) (env : Env σ ε),
    (forwardLoop l idx s env).outcome ≠ Outcome.returned (some Error.alreadyInExecute) := by
  induction l with
  | nil => intro idx s env; simp [forwardLoop]
  | cons p ps ih =>
    intro idx s env
    cases hr : (p.Transaction env.world).1 with
    | none => rw [forwardLoop_cons_ok p ps idx s env hr]; exact ih _ _ _
    | some err =>
      rw [forwardLoop_cons_fail p ps idx s env err hr]
      cases (compensate s ⟨(p.Transaction env.world).2,
        env.calls ++ [Call.transaction idx (some err)]⟩).1 <;> simp [Option.elim]

/-- After any call of `ExecuteTransaction`, however it ended, the executed-flag is set. -/
theorem ExecuteTransaction_isExecutable (s : Saga σ ε) (env : Env σ ε) :
    (ExecuteTransaction s env).saga.isExecutable = true := by
  cases h : s.isExecutable with
  | true => rw [ExecuteTransaction_rejected s env h]; exact h
  | false =>
    have : ExecuteTransaction s env = forwardLoop s.Service 0 { s with isExecutable := true } env := by
      simp [ExecuteTransaction, h]
    rw [this, forwardLoop_isExecutable]

/-- Further calls on a coordinator whose executed-flag is set leave everything as it is. -/
theorem executeAgain_rejected (n : Nat) : ∀ (s : Saga σ ε) (env : Env σ ε),
    s.isExecutable = true → executeAgain n (s, env) = (s, env) := by
  induction n with
  | zero => intro s env _; rfl
  | succ n ih =>
    intro s env h
    rw [executeAgain]
    simp only [ExecuteTransaction_rejected s env h]
    exact ih s env h

/-- A log of `Transaction` calls holds no `Compensate` call. -/
theorem compensateCalls_transactions (f : Nat → Nat) (l : List Nat) :
    compensateCalls (l.map (fun j => (Call.transaction (f j) none : Call ε))) = [] := by
  simp [compensateCalls, List.filterMap_map]

/-- Positions of a log of `Transaction` calls. -/
theorem transactionCalls_transactions (f : Nat → Nat) (l : List Nat) :
    transactionCalls (l.map (fun j => (Call.transaction (f j) none : Call ε))) = l.map f := by
  induction l with
  | nil => rfl
  | cons a l ih =>
    rw [transactionCalls] at ih ⊢
    rw [List.map_cons, List.map_cons, List.filterMap_cons]
    exact congrArg (List.cons (f a)) ih

/-- The `Transaction` positions of a concatenated log. -/
theorem transactionCalls_append (a b : List (Call ε)) :
    transactionCalls (a ++ b) = transactionCalls a ++ transactionCalls b := by
  simp [transactionCalls]

/-- The `Compensate` positions of a concatenated log. -/
theorem compensateCalls_append (a b : List (Call ε)) :
    compensateCalls (a ++ b) = compensateCalls a ++ compensateCalls b := by
  simp [compensateCalls]

end Execute

/-! ## The calls made by `compensate` while the map is `nil` -/

section CompensateTrace

variable {σ ε : Type}

/-- The members of `countdown i` are the indices from 1 to `i`. -/
theorem mem_countdown (i x : Nat) : x ∈ countdown i ↔ 1 ≤ x ∧ x ≤ i := by
  induction i with
  | zero =>
    simp only [countdown, List.not_mem_nil, false_iff]
    omega
  | succ i ih =>
    rw [countdown, List.mem_cons, ih]
    omega

/-- No index occurs twice in `countdown i`. -/
theorem countdown_nodup (i : Nat) : (countdown i).Nodup := by
  induction i with
  | zero => simp [countdown]
  | succ i ih =>
    rw [countdown, List.nodup_cons]
    refine ⟨?_, ih⟩
    rw [mem_countdown]
    omega

/-- Positions of a log of successful `Compensate` calls. -/
theorem compensateCalls_compensates (L : List Nat) :
    compensateCalls (L.map (fun j => (Call.compensate j none : Call ε))) = L := by
  induction L with
  | nil => rfl
  | cons a L ih =>
    rw [compensateCalls] at ih ⊢
    rw [List.map_cons, List.filterMap_cons]
    exact congrArg (List.cons a) ih

/-- A log of successful `Compensate` calls holds no `Transaction` call. -/
theorem transactionCalls_compensates (L : List Nat) :
    transactionCalls (L.map (fun j => (Call.compensate j none : Call ε))) = [] := by
  simp [transactionCalls, List.filterMap_map]

/-- The compensation loop started inside the slice with a `nil` map: either every `Compensate`
call succeeds and the loop visits `i, i-1, ..., 1` and ends, or it visits these indices down
to the first one, `j + 1`, whose `Compensate` fails, calls `GetName` there and panics on the
write to the `nil` map. -/
theorem compensateLoop_nil_trace (i : Nat) : ∀ (s : Saga σ ε) (env : Env σ ε),
    s.errors = none → i < s.Service.length →
    ((compensateLoop i s env).1 = none ∧
      (compensateLoop i s env).2.2.calls =
        env.calls ++ (countdown i).map (fun j => Call.compensate j none)) ∨
    (∃ (L : List Nat) (j : Nat) (ce : ε) (nm : String),
      (compensateLoop i s env).1 = some Fault.nilMapWrite ∧
      countdown i = L ++ (j + 1) :: countdown j ∧
      (compensateLoop i s env).2.2.calls =
        env.calls ++ (L.map (fun j => Call.compensate j none) ++
          [Call.compensate (j + 1) (some ce), Call.getName (j + 1) nm])) := by
  induction i with
  | zero =>
    intro s env _ _
    left
    exact ⟨rfl, by simp [compensateLoop, countdown]⟩
  | succ i ih =>
    intro s env hm hlt
    cases hsvc : s.Service[i + 1]? with
    | none =>
      rw [List.getElem?_eq_none_iff] at hsvc
      omega
    | some svc =>
      cases hr : (svc.Compensate env.world).1 with
      | none =>
        rw [compensateLoop_succ_ok i s env svc hsvc hr]
        rcases ih s ⟨(svc.Compensate env.world).2,
          env.calls ++ [Call.compensate (i + 1) none]⟩ hm (by omega) with
          ⟨h1, h2⟩ | ⟨L, j, ce, nm, h1, h2, h3⟩
        · left
          refine ⟨h1, ?_⟩
          rw [h2]
          simp [countdown]
        · right
          refine ⟨(i + 1) :: L, j, ce, nm, h1, ?_, ?_⟩
          · rw [countdown, h2, List.cons_append]
          · rw [h3]
            simp
      | some err =>
        rw [compensateLoop_succ_nil i s env svc err hsvc hr hm]
        right
        refine ⟨[], i, err, (svc.GetName (svc.Compensate env.world).2).1, rfl, ?_, ?_⟩
        · simp [countdown]
        · simp

end CompensateTrace

/-! ## The first run and the later calls -/

section Lifetime

variable {σ ε : Type}

/-- Either every `Transaction` succeeds or some participant is the first to fail. -/
theorem allSucceed_or_firstFailure (P : List (Service σ ε)) : ∀ (w : σ),
    AllSucceed P w ∨ ∃ k e, FirstFailure P w k e := by
  induction P with
  | nil => intro w; left; simp [AllSucceed, transactionResults]
  | cons p ps ih =>
    intro w
    cases hr : (p.Transaction w).1 with
    | some e => exact Or.inr ⟨0, e, (firstFailure_cons_zero p ps w e).2 hr⟩
    | none =>
      rcases ih (p.Transaction w).2 with h | ⟨k, e, h⟩
      · exact Or.inl ((allSucceed_cons p ps w).2 ⟨hr, h⟩)
      · exact Or.inr ⟨k + 1, e, (firstFailure_cons_succ p ps w k e).2 ⟨hr, h⟩⟩

/-- The first run when every `Transaction` succeeds. -/
theorem firstRun_allSucceed (P : List (Service σ ε)) (w : σ) (h : AllSucceed P w) :
    firstRun P w =
      ⟨Outcome.returned none,
        { Service := P, isExecutable := true, successfulTransfers := P.length, errors := none },
        ⟨worldAfter P w P.length, (List.range P.length).map (fun j => Call.transaction j none)⟩⟩ := by
  rw [firstRun_eq_forwardLoop, forwardLoop_allSucceed P 0 _ w [] h]
  simp [NewSaga]

/-- The coordinator after a first run with a forward failure at step `k`: `k` successes are
counted and the map is still `nil`, whether `compensate` ended or panicked. -/
theorem firstRun_saga_firstFailure (P : List (Service σ ε)) (w : σ) (k : Nat) (e : ε)
    (h : FirstFailure P w k e) : (firstRun P w).saga = failureSaga P k := by
  rw [firstRun_firstFailure P w k e h]
  exact compensateLoop_nil_map k (failureSaga P k) (failureEnv P w k e) rfl

/-- The outcome and the call log of a first run with a forward failure at step `k`. -/
theorem firstRun_trace (P : List (Service σ ε)) (w : σ) (k : Nat) (e : ε)
    (h : FirstFailure P w k e) :
    ((firstRun P w).outcome = Outcome.returned (some (Error.service e)) ∧
      (firstRun P w).env.calls =
        forwardCalls k e ++ (countdown k).map (fun j => Call.compensate j none)) ∨
    (∃ (L : List Nat) (j : Nat) (ce : ε) (nm : String),
      (firstRun P w).outcome = Outcome.panicked Fault.nilMapWrite ∧
      countdown k = L ++ (j + 1) :: countdown j ∧
      (firstRun P w).env.calls =
        forwardCalls k e ++ (L.map (fun j => Call.compensate j none) ++
          [Call.compensate (j + 1) (some ce), Call.getName (j + 1) nm])) := by
  rw [firstRun_firstFailure P w k e h]
  rcases compensateLoop_nil_trace k (failureSaga P k) (failureEnv P w k e) rfl
      (firstFailure_lt_length P w k e h) with ⟨h1, h2⟩ | ⟨L, j, ce, nm, h1, h2, h3⟩
  · left
    exact ⟨by simp [h1], h2⟩
  · right
    exact ⟨L, j, ce, nm, by simp [h1], h2, h3⟩

/-- After the first run the map is still `nil`. -/
theorem firstRun_errors (P : List (Service σ ε)) (w : σ) : (firstRun P w).saga.errors = none := by
  rcases allSucceed_or_firstFailure P w with h | ⟨k, e, h⟩
  · rw [firstRun_allSucceed P w h]
  · rw [firstRun_saga_firstFailure P w k e h]
    rfl

/-- Any number of calls, at least one, leaves the saga and the environment as the first call
left them. -/
theorem executeAgain_succ_newSaga (P : List (Service σ ε)) (w : σ) (n : Nat) :
    executeAgain (n + 1) (NewSaga P, Env.init w) = ((firstRun P w).saga, (firstRun P w).env) := by
  rw [executeAgain]
  exact executeAgain_rejected n _ _ (ExecuteTransaction_isExecutable _ _)

/-- The `Compensate` calls of a first run are made on pairwise different positions. -/
theorem firstRun_compensateCalls_nodup (P : List (Service σ ε)) (w : σ) :
    (compensateCalls (firstRun P w).env.calls).Nodup := by
  rcases allSucceed_or_firstFailure P w with h | ⟨k, e, h⟩
  · rw [firstRun_allSucceed P w h]
    simpa using (compensateCalls_transactions (ε := ε) (fun j => j) (List.range P.length)).symm ▸
      List.nodup_nil
  · have hfwd : compensateCalls (forwardCalls k e) = [] := by
      rw [forwardCalls, compensateCalls_append,
        compensateCalls_transactions (fun j => j) (List.range k)]
      rfl
    rcases firstRun_trace P w k e h with ⟨_, h2⟩ | ⟨L, j, ce, nm, _, h2, h3⟩
    · rw [h2, compensateCalls_append, hfwd, compensateCalls_compensates]
      exact countdown_nodup k
    · rw [h3, compensateCalls_append, hfwd, compensateCalls_append, compensateCalls_compensates]
      have hpre : (L ++ [j + 1]).Sublist (countdown k) := by
        rw [h2]
        exact List.Sublist.append (List.Sublist.refl L) (by simp)
      exact (countdown_nodup k).sublist hpre

/-- After at least one call the saga and the environment are those the first call left. -/
theorem afterCalls_succ (P : List (Service σ ε)) (w : σ) (m : Nat) :
    afterCalls P w (m + 1) = ((firstRun P w).saga, (firstRun P w).env) :=
  executeAgain_succ_newSaga P w m

/-- At every moment of its life the saga has its flag set or a success counter of 0, and its
map is `nil`. -/
theorem afterCalls_state (P : List (Service σ ε)) (w : σ) (m : Nat) :
    ((afterCalls P w m).1.isExecutable = true ∨ (afterCalls P w m).1.successfulTransfers = 0) ∧
    (afterCalls P w m).1.errors = none := by
  cases m with
  | zero => exact ⟨Or.inr rfl, rfl⟩
  | succ m =>
    rw [afterCalls_succ]
    exact ⟨Or.inl (ExecuteTransaction_isExecutable _ _), firstRun_errors P w⟩

/-- The first run never panics on an index out of range. -/
theorem firstRun_no_index_fault (P : List (Service σ ε)) (w : σ) :
    (firstRun P w).outcome ≠ Outcome.panicked Fault.indexOutOfRange := by
  rcases allSucceed_or_firstFailure P w with h | ⟨k, e, h⟩
  · rw [firstRun_allSucceed P w h]
    simp
  · rcases firstRun_trace P w k e h with ⟨h1, _⟩ | ⟨L, j, ce, nm, h1, _, _⟩ <;> rw [h1] <;> simp

end Lifetime

/-! ## Loop turns -/

section Turns

variable {σ ε : Type}

/-- The control point after `n` turns, as an iterate of `step`. -/
theorem configAt_eq_iterate (s : Saga σ ε) (env : Env σ ε) (n : Nat) :
    configAt s env n = Nat.iterate step n (entry s env) := by
  induction n with
  | zero => rfl
  | succ n ih => rw [configAt, ih, Function.iterate_succ_apply']

/-- A finished call stays finished. -/
theorem iterate_step_finished (n : Nat) (r : Result σ ε) :
    Nat.iterate step n (Config.finished r) = Config.finished r := by
  induction n with
  | zero => rfl
  | succ n ih => rw [Function.iterate_succ_apply, step, ih]

/-- Turn by turn, the loop of `compensate` reaches the end that `compensateLoop` computes. -/
theorem compensating_reaches (i : Nat) : ∀ (err : ε) (s : Saga σ ε) (env : Env σ ε),
    ∃ n, Nat.iterate step n (Config.compensating i err s env) =
      Config.finished
        ⟨(compensateLoop i s env).1.elim (Outcome.returned (some (Error.service err)))
            Outcome.panicked,
          (compensateLoop i s env).2.1, (compensateLoop i s env).2.2⟩ := by
  induction i with
  | zero => intro err s env; exact ⟨1, rfl⟩
  | succ i ih =>
    intro err s env
    cases hsvc : s.Service[i + 1]? with
    | none =>
      refine ⟨1, ?_⟩
      rw [compensateLoop_succ_range i s env hsvc, Function.iterate_one, step, hsvc]
      rfl
    | some svc =>
      cases hr : (svc.Compensate env.world).1 with
      | none =>
        obtain ⟨n, hn⟩ := ih err s
          ⟨(svc.Compensate env.world).2, env.calls ++ [Call.compensate (i + 1) none]⟩
        refine ⟨n + 1, ?_⟩
        rw [compensateLoop_succ_ok i s env svc hsvc hr, Function.iterate_succ_apply, ← hn]
        congr 1
        rw [step, hsvc]
        simp only [hr]
      | some cerr =>
        cases hm : s.errors with
        | none =>
          refine ⟨1, ?_⟩
          rw [compensateLoop_succ_nil i s env svc cerr hsvc hr hm, Function.iterate_one, step,
            hsvc]
          simp only [hr, hm]
          rfl
        | some m =>
          obtain ⟨n, hn⟩ := ih err
            { s with errors := some (mapAssign m (svc.GetName (svc.Compensate env.world).2).1
                (Error.service cerr)) }
            ⟨(svc.GetName (svc.Compensate env.world).2).2,
              env.calls ++ [Call.compensate (i + 1) (some cerr)] ++
                [Call.getName (i + 1) (svc.GetName (svc.Compensate env.world).2).1]⟩
          refine ⟨n + 1, ?_⟩
          rw [compensateLoop_succ_record i s env svc cerr m hsvc hr hm,
            Function.iterate_succ_apply, ← hn]
          congr 1
          rw [step, hsvc]
          simp only [hr, hm]

/-- Turn by turn, the `range` loop reaches the end that `forwardLoop` computes. -/
theorem forward_reaches (l : List (Service σ ε)) : ∀ (idx : Nat) (s : Saga σ ε) (env : Env σ ε),
    ∃ n, Nat.iterate step n (Config.forward l idx s env) =
      Config.finished (forwardLoop l idx s env) := by
  induction l with
  | nil => intro idx s env; exact ⟨1, rfl⟩
  | cons p ps ih =>
    intro idx s env
    cases hr : (p.Transaction env.world).1 with
    | none =>
      obtain ⟨n, hn⟩ := ih (idx + 1) { s with successfulTransfers := s.successfulTransfers + 1 }
        ⟨(p.Transaction env.world).2, env.calls ++ [Call.transaction idx none]⟩
      refine ⟨n + 1, ?_⟩
      rw [forwardLoop_cons_ok p ps idx s env hr, Function.iterate_succ_apply, ← hn]
      congr 1
      rw [step]
      simp only [hr]
    | some err =>
      obtain ⟨n, hn⟩ := compensating_reaches s.successfulTransfers err s
        ⟨(p.Transaction env.world).2, env.calls ++ [Call.transaction idx (some err)]⟩
      refine ⟨n + 1, ?_⟩
      rw [forwardLoop_cons_fail p ps idx s env err hr, Function.iterate_succ_apply]
      rw [compensate, ← hn]
      congr 1
      rw [step]
      simp only [hr]

/-- The turns of a call end in the result of `ExecuteTransaction`. -/
theorem configAt_reaches (s : Saga σ ε) (env : Env σ ε) :
    ∃ n, configAt s env n = Config.finished (ExecuteTransaction s env) := by
  cases hflag : s.isExecutable with
  | true =>
    refine ⟨0, ?_⟩
    simp [configAt, entry, ExecuteTransaction, hflag]
  | false =>
    obtain ⟨n, hn⟩ := forward_reaches s.Service 0 { s with isExecutable := true } env
    refine ⟨n, ?_⟩
    rw [configAt_eq_iterate]
    simpa [entry, ExecuteTransaction, hflag] using hn

/-- The control point after `n + m` turns is `m` turns after the one after `n` turns. -/
theorem configAt_add (s : Saga σ ε) (env : Env σ ε) (n m : Nat) :
    configAt s env (n + m) = Nat.iterate step m (configAt s env n) := by
  rw [configAt_eq_iterate, configAt_eq_iterate, Nat.add_comm, Function.iterate_add_apply]

/-- No turn lowers the success counter. -/
theorem step_counter_le (c : Config σ ε) :
    c.saga.successfulTransfers ≤ (step c).saga.successfulTransfers := by
  match c with
  | Config.forward [] idx s env => exact Nat.le_refl _
  | Config.forward (p :: ps) idx s env =>
    rw [step]
    cases hr : (p.Transaction env.world).1 <;> simp [hr, Config.saga]
  | Config.compensating 0 err s env => exact Nat.le_refl _
  | Config.compensating (i + 1) err s env =>
    rw [step]
    cases hsvc : s.Service[i + 1]? with
    | none => exact Nat.le_refl _
    | some svc =>
      cases hr : (svc.Compensate env.world).1 with
      | none => simp [hr, Config.saga]
      | some cerr => cases hm : s.errors <;> simp [hr, hm, Config.saga]
  | Config.finished r => exact Nat.le_refl _

/-- A turn whose `Transaction` call succeeds raises the success counter by exactly 1. -/
theorem step_counter_transaction (c : Config σ ε) (h : c.transactionSucceeds = true) :
    (step c).saga.successfulTransfers = c.saga.successfulTransfers + 1 := by
  match c with
  | Config.forward [] idx s env => simp [Config.transactionSucceeds] at h
  | Config.forward (p :: ps) idx s env =>
    have hr : (p.Transaction env.world).1 = none := by
      simpa [Config.transactionSucceeds, Option.isNone_iff_eq_none] using h
    rw [step]
    simp [hr, Config.saga]
  | Config.compensating i err s env => simp [Config.transactionSucceeds] at h
  | Config.finished r => simp [Config.transactionSucceeds] at h

/-- From inside `compensate` on, a turn leaves the success counter as it is, and leads to a
control point inside `compensate` or to the end of the call. -/
theorem step_settled (c : Config σ ε) (h : c.inCompensate = true ∨ ∃ r, c = Config.finished r) :
    (step c).saga.successfulTransfers = c.saga.successfulTransfers ∧
    ((step c).inCompensate = true ∨ ∃ r, step c = Config.finished r) := by
  match c with
  | Config.forward l idx s env =>
    rcases h with h | ⟨r, h⟩
    · simp [Config.inCompensate] at h
    · simp at h
  | Config.compensating 0 err s env => exact ⟨rfl, Or.inr ⟨_, rfl⟩⟩
  | Config.compensating (i + 1) err s env =>
    rw [step]
    cases hsvc : s.Service[i + 1]? with
    | none => exact ⟨rfl, Or.inr ⟨_, rfl⟩⟩
    | some svc =>
      cases hr : (svc.Compensate env.world).1 with
      | none => simp [hr, Config.saga, Config.inCompensate]
      | some cerr => cases hm : s.errors <;> simp [hr, hm, Config.saga, Config.inCompensate]
  | Config.finished r => exact ⟨rfl, Or.inr ⟨_, rfl⟩⟩

/-- From inside `compensate` on, the success counter keeps its value, turn after turn. -/
theorem iterate_settled (m : Nat) : ∀ (c : Config σ ε),
    (c.inCompensate = true ∨ ∃ r, c = Config.finished r) →
    (Nat.iterate step m c).saga.successfulTransfers = c.saga.successfulTransfers := by
  induction m with
  | zero => intro c _; rfl
  | succ m ih =>
    intro c h
    rw [Function.iterate_succ_apply, ih (step c) (step_settled c h).2, (step_settled c h).1]

/-- The success counter found inside `compensate` is the one the call ends with. -/
theorem final_counter_of_inCompensate (s : Saga σ ε) (env : Env σ ε) (n : Nat)
    (h : (configAt s env n).inCompensate = true) :
    (ExecuteTransaction s env).saga.successfulTransfers =
      (configAt s env n).saga.successfulTransfers := by
  obtain ⟨N, hN⟩ := configAt_reaches s env
  have h1 : configAt s env (N + n) = Config.finished (ExecuteTransaction s env) := by
    rw [configAt_add, hN, iterate_step_finished]
  have h2 : (configAt s env (n + N)).saga.successfulTransfers =
      (configAt s env n).saga.successfulTransfers := by
    rw [configAt_add]
    exact iterate_settled N _ (Or.inl h)
  rw [Nat.add_comm, h1] at h2
  exact h2

/-- The invariant `wellIndexed` is kept by every turn. -/
theorem step_wellIndexed (c : Config σ ε) (h : c.wellIndexed) : (step c).wellIndexed := by
  match c with
  | Config.forward [] idx s env => trivial
  | Config.forward (p :: ps) idx s env =>
    obtain ⟨visited, hv, hc⟩ := h
    rw [step]
    cases hr : (p.Transaction env.world).1 with
    | none =>
      simp only [hr, Config.wellIndexed]
      exact ⟨visited ++ [p], by simp [hv], by simp [hc]⟩
    | some err =>
      simp only [hr, Config.wellIndexed]
      refine ⟨Nat.le_refl _, ?_⟩
      rw [hv, hc]
      simp
  | Config.compensating 0 err s env => trivial
  | Config.compensating (i + 1) err s env =>
    obtain ⟨h1, h2⟩ := h
    rw [step]
    cases hsvc : s.Service[i + 1]? with
    | none => trivial
    | some svc =>
      cases hr : (svc.Compensate env.world).1 with
      | none =>
        simp only [hr, Config.wellIndexed]
        exact ⟨by omega, h2⟩
      | some cerr =>
        cases hm : s.errors with
        | none => simp only [hr, hm, Config.wellIndexed]
        | some m =>
          simp only [hr, hm, Config.wellIndexed]
          exact ⟨by omega, h2⟩
  | Config.finished r => trivial

/-- Every control point of a call that starts with the flag set or with a success counter
of 0 satisfies `wellIndexed`. -/
theorem configAt_wellIndexed (s : Saga σ ε) (env : Env σ ε)
    (h : s.isExecutable = true ∨ s.successfulTransfers = 0) (n : Nat) :
    (configAt s env n).wellIndexed := by
  induction n with
  | zero =>
    rw [configAt, entry]
    cases hflag : s.isExecutable with
    | true => trivial
    | false =>
      rcases h with h | h
      · rw [hflag] at h; exact absurd h (by simp)
      · exact ⟨[], by simp, by simp [h]⟩
  | succ n ih => exact step_wellIndexed _ ih

/-- A turn from a control point that satisfies `wellIndexed` keeps the success counter within
the length of the slice. -/
theorem step_counter_bounded (c : Config σ ε) (h : c.wellIndexed)
    (hb : c.saga.successfulTransfers ≤ c.saga.Service.length) :
    (step c).saga.successfulTransfers ≤ (step c).saga.Service.length := by
  match c with
  | Config.forward [] idx s env => exact hb
  | Config.forward (p :: ps) idx s env =>
    obtain ⟨visited, hv, hc⟩ := h
    rw [step]
    cases hr : (p.Transaction env.world).1 with
    | none =>
      simp only [hr, Config.saga]
      rw [hv, hc]
      simp
    | some err =>
      simp only [hr, Config.saga]
      exact hb
  | Config.compensating 0 err s env => exact hb
  | Config.compensating (i + 1) err s env =>
    rw [step]
    cases hsvc : s.Service[i + 1]? with
    | none => exact hb
    | some svc =>
      cases hr : (svc.Compensate env.world).1 with
      | none =>
        simp only [hr, Config.saga]
        exact hb
      | some cerr =>
        cases hm : s.errors with
        | none =>
          simp only [hr, hm, Config.saga]
          exact hb
        | some m =>
          simp only [hr, hm, Config.saga]
          exact hb
  | Config.finished r => exact hb

/-- At every control point of a call that starts with the flag set or with a success counter
of 0, and with the counter within the length of the slice, the counter is within the length of
the slice. -/
theorem configAt_counter_bounded (s : Saga σ ε) (env : Env σ ε)
    (h : s.isExecutable = true ∨ s.successfulTransfers = 0)
    (hb : s.successfulTransfers ≤ s.Service.length) (n : Nat) :
    (configAt s env n).saga.successfulTransfers ≤ (configAt s env n).saga.Service.length := by
  induction n with
  | zero =>
    rw [configAt, entry]
    cases hflag : s.isExecutable with
    | true => exact hb
    | false => exact hb
  | succ n ih => exact step_counter_bounded _ (configAt_wellIndexed s env h n) ih

/-- At every moment of the life of a saga built by `NewSaga` the success counter is within
the length of the slice. -/
theorem afterCalls_counter_bounded (P : List (Service σ ε)) (w : σ) (m : Nat) :
    (afterCalls P w m).1.successfulTransfers ≤ (afterCalls P w m).1.Service.length := by
  cases m with
  | zero => exact Nat.zero_le _
  | succ m =>
    rw [afterCalls_succ]
    obtain ⟨n, hn⟩ := configAt_reaches (NewSaga P) (Env.init w)
    have hb := configAt_counter_bounded (NewSaga P) (Env.init w) (Or.inr rfl) (Nat.zero_le _) n
    rw [hn] at hb
    exact hb

/-- A turn that is not a successful `Transaction` call leaves the success counter as it is. -/
theorem step_counter_other (c : Config σ ε) (h : c.transactionSucceeds = false) :
    (step c).saga.successfulTransfers = c.saga.successfulTransfers := by
  match c with
  | Config.forward [] idx s env => rfl
  | Config.forward (p :: ps) idx s env =>
    rw [step]
    cases hr : (p.Transaction env.world).1 with
    | none => simp [Config.transactionSucceeds, hr] at h
    | some err => simp [hr, Config.saga]
  | Config.compensating i err s env =>
    exact (step_settled (Config.compensating i err s env) (Or.inl rfl)).1
  | Config.finished r => rfl

end Turns

/-! ## Properties of the specification -/

section Properties

variable {σ ε : Type}

/-- C1 (clean-rollback order), the code at scenario 2: on `[A, B, C]` with `C.Transaction`
failing with "boom" and every `Compensate` succeeding, the call log is
`[A.do, B.do, C.do, C.undo, B.undo]`: `Compensate` is called on positions 2 and 1, not on
positions 1 and 0 as the specified order `P[k-1], ..., P[0]` demands. -/
theorem C1_rollback_order_scenario :
    FirstFailure scenarioThirdFails () 2 "boom" ∧
    (firstRun scenarioThirdFails ()).env.calls =
      [Call.transaction 0 none, Call.transaction 1 none, Call.transaction 2 (some "boom"),
        Call.compensate 2 none, Call.compensate 1 none] ∧
    compensateCalls (firstRun scenarioThirdFails ()).env.calls = [2, 1] ∧
    compensateCalls (firstRun scenarioThirdFails ()).env.calls ≠ [1, 0] := by
  decide

/-- C2 (the failing participant is not compensated), the code at `[A, B]` with
`B.Transaction` the first to fail: `ExecuteTransaction` does call `Compensate` on the
failing participant `B` (position 1), and on no other participant. -/
theorem C2_failing_participant_scenario :
    FirstFailure scenarioSecondFails () 1 "boom" ∧
    (firstRun scenarioSecondFails ()).env.calls =
      [Call.transaction 0 none, Call.transaction 1 (some "boom"), Call.compensate 1 none] ∧
    1 ∈ compensateCalls (firstRun scenarioSecondFails ()).env.calls := by
  decide

/-- C3 (dirty rollback), the code at scenario 3: on `[A, B, C]` with `C.Transaction` failing
with "boom" and `B.Compensate` failing with "undo-boom", `ExecuteTransaction` does not return
"boom" but panics on the write to the `nil` map, right after `B.Compensate` and `B.GetName`;
`GetErrors` has no entry for "B" and `Compensate` is never called on `A` (position 0). -/
theorem C3_dirty_rollback_scenario :
    FirstFailure scenarioDirtyRollback () 2 "boom" ∧
    (firstRun scenarioDirtyRollback ()).outcome = Outcome.panicked Fault.nilMapWrite ∧
    (firstRun scenarioDirtyRollback ()).env.calls =
      [Call.transaction 0 none, Call.transaction 1 none, Call.transaction 2 (some "boom"),
        Call.compensate 2 none, Call.compensate 1 (some "undo-boom"), Call.getName 1 "B"] ∧
    (GetErrors (firstRun scenarioDirtyRollback ()).saga).get "B" = none ∧
    0 ∉ compensateCalls (firstRun scenarioDirtyRollback ()).env.calls := by
  decide

/-- C4 (all-succeed): if every participant's `Transaction` succeeds, the first
`ExecuteTransaction` on `NewSaga(P)` returns `nil`, its call log is exactly
`P[0].Transaction, ..., P[n-1].Transaction`, so no `Compensate` is called, and `GetErrors`
is empty afterwards. -/
theorem C4_all_succeed (P : List (Service σ ε)) (w : σ) (h : AllSucceed P w) :
    (firstRun P w).outcome = Outcome.returned none ∧
    (firstRun P w).env.calls = (List.range P.length).map (fun j => Call.transaction j none) ∧
    compensateCalls (firstRun P w).env.calls = [] ∧
    (GetErrors (firstRun P w).saga).len = 0 := by
  rw [firstRun_eq_forwardLoop, forwardLoop_allSucceed P 0 _ w [] h]
  refine ⟨rfl, ?_, ?_, rfl⟩
  · simp
  · simpa using compensateCalls_transactions (fun j => 0 + j) (List.range P.length)

/-- Scenario 1 (`[A, B, C]`, every `do` succeeds) satisfies the hypothesis of `C4_all_succeed`. -/
theorem C4_all_succeed_witness :
    AllSucceed scenarioThreeSuccesses () ∧
    (firstRun scenarioThreeSuccesses ()).outcome = Outcome.returned none ∧
    (firstRun scenarioThreeSuccesses ()).env.calls =
      (List.range scenarioThreeSuccesses.length).map (fun j => Call.transaction j none) ∧
    compensateCalls (firstRun scenarioThreeSuccesses ()).env.calls = [] ∧
    (GetErrors (firstRun scenarioThreeSuccesses ()).saga).len = 0 :=
  ⟨by decide, C4_all_succeed scenarioThreeSuccesses () (by decide)⟩

/-- C5 (forward failure passed through unwrapped): if `P[k]` is the first participant whose
`Transaction` fails, with error `e`, and the first `ExecuteTransaction` returns, then what it
returns is `e` itself. -/
theorem C5_forward_failure_unwrapped (P : List (Service σ ε)) (w : σ) (k : Nat) (e : ε)
    (h : FirstFailure P w k e) (hret : ∃ r, (firstRun P w).outcome = Outcome.returned r) :
    (firstRun P w).outcome = Outcome.returned (some (Error.service e)) := by
  rw [firstRun_firstFailure P w k e h] at hret ⊢
  cases hc : (compensateLoop k (failureSaga P k) (failureEnv P w k e)).1 with
  | none => simp [hc]
  | some f =>
    obtain ⟨r, hr⟩ := hret
    simp [hc] at hr

/-- Scenario 2 satisfies the hypotheses of `C5_forward_failure_unwrapped`: the call returns, and returns "boom". -/
theorem C5_forward_failure_unwrapped_witness :
    FirstFailure scenarioThirdFails () 2 "boom" ∧
    (∃ r, (firstRun scenarioThirdFails ()).outcome = Outcome.returned r) ∧
    (firstRun scenarioThirdFails ()).outcome = Outcome.returned (some (Error.service "boom")) :=
  ⟨by decide, ⟨some (Error.service "boom"), by decide⟩,
    C5_forward_failure_unwrapped scenarioThirdFails () 2 "boom" (by decide)
      ⟨some (Error.service "boom"), by decide⟩⟩

/-- C6 (forward order, fail-fast): on the first `ExecuteTransaction`, if `P[k]` is the first
participant whose `Transaction` fails, the call log starts with `P[0].Transaction, ...,
P[k].Transaction` in that order and nothing after that is a `Transaction` call, so the
`Transaction` calls are exactly those on positions `0..k` and every `Compensate` call comes
after `P[k].Transaction` has returned; if no `Transaction` fails, the calls are exactly
`P[0].Transaction, ..., P[n-1].Transaction`. -/
theorem C6_forward_order_fail_fast (P : List (Service σ ε)) (w : σ) :
    (∀ k e, FirstFailure P w k e →
      transactionCalls (firstRun P w).env.calls = List.range (k + 1) ∧
      ∃ rest, (firstRun P w).env.calls = forwardCalls k e ++ rest ∧
        transactionCalls rest = []) ∧
    (AllSucceed P w →
      (firstRun P w).env.calls =
        (List.range P.length).map (fun j => Call.transaction j none)) := by
  constructor
  · intro k e h
    rw [firstRun_firstFailure P w k e h]
    obtain ⟨ext, h1, h2⟩ := compensateLoop_calls k (failureSaga P k) (failureEnv P w k e)
    have hfwd : transactionCalls (forwardCalls k e) = List.range (k + 1) := by
      rw [forwardCalls, transactionCalls_append,
        transactionCalls_transactions (fun j => j) (List.range k), List.range_succ]
      simp [transactionCalls]
    refine ⟨?_, ext, h1, h2⟩
    show transactionCalls (compensateLoop k (failureSaga P k) (failureEnv P w k e)).2.2.calls = _
    rw [h1, transactionCalls_append, h2, List.append_nil]
    exact hfwd
  · intro h
    rw [firstRun_eq_forwardLoop, forwardLoop_allSucceed P 0 _ w [] h]
    simp

/-- Scenario 2 (first failure at step 2) and scenario 1 (no failure) satisfy the two hypotheses of `C6_forward_order_fail_fast`. -/
theorem C6_forward_order_fail_fast_witness :
    (FirstFailure scenarioThirdFails () 2 "boom" ∧
      transactionCalls (firstRun scenarioThirdFails ()).env.calls = List.range (2 + 1) ∧
      ∃ rest, (firstRun scenarioThirdFails ()).env.calls = forwardCalls 2 "boom" ++ rest ∧
        transactionCalls rest = []) ∧
    (AllSucceed scenarioThreeSuccesses () ∧
      (firstRun scenarioThreeSuccesses ()).env.calls =
        (List.range scenarioThreeSuccesses.length).map (fun j => Call.transaction j none)) :=
  ⟨⟨by decide, (C6_forward_order_fail_fast scenarioThirdFails ()).1 2 "boom" (by decide)⟩,
    ⟨by decide, (C6_forward_order_fail_fast scenarioThreeSuccesses ()).2 (by decide)⟩⟩

/-- C7 (single-shot): once `ExecuteTransaction` has been invoked on a saga, however that
first call ended, every later call returns the already-executed error and leaves the
coordinator, the participants' world and the call log as they were, so it invokes no
`Transaction`, `Compensate` or `GetName`; this holds for the call after any number `n` of
further calls, and in whatever environment `env2` a later call is made. -/
theorem C7_single_shot (s : Saga σ ε) (env env2 : Env σ ε) (n : Nat) :
    ExecuteTransaction
        (executeAgain n ((ExecuteTransaction s env).saga, (ExecuteTransaction s env).env)).1
        (executeAgain n ((ExecuteTransaction s env).saga, (ExecuteTransaction s env).env)).2 =
      ⟨Outcome.returned (some Error.alreadyInExecute),
        (ExecuteTransaction s env).saga, (ExecuteTransaction s env).env⟩ ∧
    ExecuteTransaction (ExecuteTransaction s env).saga env2 =
      ⟨Outcome.returned (some Error.alreadyInExecute), (ExecuteTransaction s env).saga, env2⟩ := by
  have hflag := ExecuteTransaction_isExecutable s env
  constructor
  · rw [executeAgain_rejected n _ _ hflag]
    exact ExecuteTransaction_rejected _ _ hflag
  · exact ExecuteTransaction_rejected _ _ hflag

/-- C8 (a rejected call has no side effects): when `ExecuteTransaction` returns the
already-executed error, the coordinator (participant sequence, success counter,
executed-flag, compensation-error mapping) and the environment are what they were before
the call. -/
theorem C8_rejected_call_no_side_effects (s : Saga σ ε) (env : Env σ ε)
    (h : (ExecuteTransaction s env).outcome = Outcome.returned (some Error.alreadyInExecute)) :
    (ExecuteTransaction s env).saga = s ∧ (ExecuteTransaction s env).env = env := by
  cases hflag : s.isExecutable with
  | true => rw [ExecuteTransaction_rejected s env hflag]; exact ⟨rfl, rfl⟩
  | false =>
    have hrun : ExecuteTransaction s env =
        forwardLoop s.Service 0 { s with isExecutable := true } env := by
      simp [ExecuteTransaction, hflag]
    rw [hrun] at h
    exact absurd h (forwardLoop_outcome _ _ _ _)

/-- A second call after scenario 1 has run is rejected, as `C8_rejected_call_no_side_effects` supposes. -/
theorem C8_rejected_call_no_side_effects_witness :
    (ExecuteTransaction (firstRun scenarioThreeSuccesses ()).saga
        (firstRun scenarioThreeSuccesses ()).env).outcome =
      Outcome.returned (some Error.alreadyInExecute) ∧
    (ExecuteTransaction (firstRun scenarioThreeSuccesses ()).saga
        (firstRun scenarioThreeSuccesses ()).env).saga = (firstRun scenarioThreeSuccesses ()).saga ∧
    (ExecuteTransaction (firstRun scenarioThreeSuccesses ()).saga
        (firstRun scenarioThreeSuccesses ()).env).env = (firstRun scenarioThreeSuccesses ()).env :=
  ⟨by decide,
    C8_rejected_call_no_side_effects (firstRun scenarioThreeSuccesses ()).saga
      (firstRun scenarioThreeSuccesses ()).env (by decide)⟩

/-- C9 (first-step failure): if the sequence is not empty and `P[0].Transaction` fails with
error `e`, the first `ExecuteTransaction` makes exactly one call, `P[0].Transaction`, so no
`Compensate` and no other `Transaction`; it returns `e` and `GetErrors` is empty afterwards. -/
theorem C9_first_step_failure (p : Service σ ε) (ps : List (Service σ ε)) (w : σ) (e : ε)
    (h : (p.Transaction w).1 = some e) :
    (firstRun (p :: ps) w).env.calls = [Call.transaction 0 (some e)] ∧
    compensateCalls (firstRun (p :: ps) w).env.calls = [] ∧
    transactionCalls (firstRun (p :: ps) w).env.calls = [0] ∧
    (firstRun (p :: ps) w).outcome = Outcome.returned (some (Error.service e)) ∧
    (GetErrors (firstRun (p :: ps) w).saga).len = 0 := by
  rw [firstRun_firstFailure (p :: ps) w 0 e ((firstFailure_cons_zero p ps w e).2 h)]
  simp [compensateLoop, failureEnv, failureSaga, forwardCalls, compensateCalls,
    transactionCalls, GetErrors, ErrorMap.len]

/-- Scenario 4 (`[A, B]`, `A.do` fails with "nope") satisfies the hypothesis of `C9_first_step_failure`. -/
theorem C9_first_step_failure_witness :
    ((scripted "A" (some "nope") none).Transaction ()).1 = some "nope" ∧
    (firstRun scenarioFirstFails ()).env.calls = [Call.transaction 0 (some "nope")] ∧
    compensateCalls (firstRun scenarioFirstFails ()).env.calls = [] ∧
    transactionCalls (firstRun scenarioFirstFails ()).env.calls = [0] ∧
    (firstRun scenarioFirstFails ()).outcome = Outcome.returned (some (Error.service "nope")) ∧
    (GetErrors (firstRun scenarioFirstFails ()).saga).len = 0 :=
  ⟨rfl, C9_first_step_failure (scripted "A" (some "nope") none) [scripted "B" none none] ()
    "nope" rfl⟩

/-- C10 (clean rollback leaves no recorded errors): under a forward failure with error `e`,
if every `Compensate` call the coordinator makes succeeds, `ExecuteTransaction` returns `e`
and `GetErrors` is empty afterwards. -/
theorem C10_clean_rollback_no_errors (P : List (Service σ ε)) (w : σ) (k : Nat) (e : ε)
    (h : FirstFailure P w k e)
    (hclean : ∀ i r, Call.compensate i r ∈ (firstRun P w).env.calls → r = none) :
    (firstRun P w).outcome = Outcome.returned (some (Error.service e)) ∧
    (GetErrors (firstRun P w).saga).len = 0 := by
  rw [firstRun_firstFailure P w k e h] at hclean ⊢
  obtain ⟨hok, hsaga⟩ := compensateLoop_clean k (failureSaga P k) (failureEnv P w k e)
    (firstFailure_lt_length P w k e h) hclean
  simp only [hok, hsaga]
  exact ⟨rfl, rfl⟩

/-- Scenario 2 satisfies the hypotheses of `C10_clean_rollback_no_errors`: both `Compensate` calls made there succeed. -/
theorem C10_clean_rollback_no_errors_witness :
    FirstFailure scenarioThirdFails () 2 "boom" ∧
    (∀ i r, Call.compensate i r ∈ (firstRun scenarioThirdFails ()).env.calls → r = none) ∧
    (firstRun scenarioThirdFails ()).outcome = Outcome.returned (some (Error.service "boom")) ∧
    (GetErrors (firstRun scenarioThirdFails ()).saga).len = 0 :=
  have hcalls : (firstRun scenarioThirdFails ()).env.calls =
      [Call.transaction 0 none, Call.transaction 1 none, Call.transaction 2 (some "boom"),
        Call.compensate 2 none, Call.compensate 1 none] := by decide
  have hclean : ∀ i r, Call.compensate i r ∈ (firstRun scenarioThirdFails ()).env.calls →
      r = none := by
    intro i r hmem
    rw [hcalls] at hmem
    simp at hmem
    rcases hmem with ⟨_, hr⟩ | ⟨_, hr⟩ <;> exact hr
  ⟨by decide, hclean, C10_clean_rollback_no_errors scenarioThirdFails () 2 "boom" (by decide) hclean⟩

/-- C11 (empty saga): `ExecuteTransaction` on `NewSaga()` with no participant returns `nil`,
makes no participant call, leaves the world as it was, the success counter at 0 and
`GetErrors` empty. -/
theorem C11_empty_saga (w : σ) :
    (firstRun ([] : List (Service σ ε)) w).outcome = Outcome.returned none ∧
    (firstRun ([] : List (Service σ ε)) w).env.calls = [] ∧
    (firstRun ([] : List (Service σ ε)) w).env.world = w ∧
    (firstRun ([] : List (Service σ ε)) w).saga.successfulTransfers = 0 ∧
    (GetErrors (firstRun ([] : List (Service σ ε)) w).saga).len = 0 :=
  ⟨rfl, rfl, rfl, rfl, rfl⟩

/-- C12 (success-counter postcondition): after the first `ExecuteTransaction` on a saga with
`n` participants, if it returned `nil` then `successfulTransfers = n`, and if it returned the
failure `e` of step `k`, the first failing `Transaction`, then `successfulTransfers = k`. -/
theorem C12_success_counter_postcondition (P : List (Service σ ε)) (w : σ) :
    ((firstRun P w).outcome = Outcome.returned none →
      (firstRun P w).saga.successfulTransfers = P.length) ∧
    (∀ k e, FirstFailure P w k e →
      (firstRun P w).outcome = Outcome.returned (some (Error.service e)) →
      (firstRun P w).saga.successfulTransfers = k) := by
  constructor
  · intro hret
    rcases allSucceed_or_firstFailure P w with h | ⟨k, e, h⟩
    · rw [firstRun_allSucceed P w h]
    · rcases firstRun_trace P w k e h with ⟨h1, _⟩ | ⟨L, j, ce, nm, h1, _, _⟩ <;>
        rw [h1] at hret <;> simp at hret
  · intro k e h _
    rw [firstRun_saga_firstFailure P w k e h]
    rfl

/-- Scenario 1 returns `nil` and scenario 2 returns the failure of step 2, as the two cases of
`C12_success_counter_postcondition` suppose. -/
theorem C12_success_counter_postcondition_witness :
    ((firstRun scenarioThreeSuccesses ()).outcome = Outcome.returned none ∧
      (firstRun scenarioThreeSuccesses ()).saga.successfulTransfers =
        scenarioThreeSuccesses.length) ∧
    (FirstFailure scenarioThirdFails () 2 "boom" ∧
      (firstRun scenarioThirdFails ()).outcome = Outcome.returned (some (Error.service "boom")) ∧
      (firstRun scenarioThirdFails ()).saga.successfulTransfers = 2) :=
  ⟨⟨by decide, (C12_success_counter_postcondition scenarioThreeSuccesses ()).1 (by decide)⟩,
    ⟨by decide, by decide,
      (C12_success_counter_postcondition scenarioThirdFails ()).2 2 "boom" (by decide)
        (by decide)⟩⟩

/-- C13 (at-most-once compensation): whatever the number `m` of `ExecuteTransaction` calls made
on a saga built by `NewSaga`, each position of the sequence occurs at most once among the
`Compensate` calls made so far. -/
theorem C13_at_most_once_compensation (P : List (Service σ ε)) (w : σ) (m i : Nat) :
    (compensateCalls (afterCalls P w m).2.calls).count i ≤ 1 := by
  have hnodup : (compensateCalls (afterCalls P w m).2.calls).Nodup := by
    cases m with
    | zero => exact List.nodup_nil
    | succ m =>
      rw [afterCalls_succ]
      exact firstRun_compensateCalls_nodup P w
  exact List.nodup_iff_count_le_one.1 hnodup i

/-- C14 (construction): `NewSaga(P)` holds exactly the sequence `P`, its executed-flag is
`false`, its success counter is 0, and the mapping that `GetErrors` returns is empty: it has
length 0 and no key has an entry. -/
theorem C14_construction (P : List (Service σ ε)) :
    (NewSaga P).Service = P ∧
    (NewSaga P).isExecutable = false ∧
    (NewSaga P).successfulTransfers = 0 ∧
    (GetErrors (NewSaga P)).len = 0 ∧
    ∀ name, (GetErrors (NewSaga P)).get name = none :=
  ⟨rfl, rfl, rfl, rfl, fun _ => rfl⟩

/-- C16 (reverse loop), the code at `[A, B, C]` with `C.Transaction` failing and `C.Compensate`
failing too: the first failing `Transaction` is at index 2, but `compensate` visits index 2
only, not `2, 1`, because the write to the `nil` map panics at the first failing `Compensate`
and ends the loop; entered in the same state with the map allocated, the same loop runs to its
end and visits `2, 1`. -/
theorem C16_reverse_loop_scenario :
    FirstFailure scenarioFailedUndoOnTop () 2 "boom" ∧
    (firstRun scenarioFailedUndoOnTop ()).outcome = Outcome.panicked Fault.nilMapWrite ∧
    (firstRun scenarioFailedUndoOnTop ()).env.calls =
      [Call.transaction 0 none, Call.transaction 1 none, Call.transaction 2 (some "boom"),
        Call.compensate 2 (some "undo-boom"), Call.getName 2 "C"] ∧
    compensateCalls (firstRun scenarioFailedUndoOnTop ()).env.calls = [2] ∧
    compensateCalls (firstRun scenarioFailedUndoOnTop ()).env.calls ≠ [2, 1] ∧
    (compensate { failureSaga scenarioFailedUndoOnTop 2 with errors := some [] }
      (failureEnv scenarioFailedUndoOnTop () 2 "boom")).1 = none ∧
    compensateCalls (compensate { failureSaga scenarioFailedUndoOnTop 2 with errors := some [] }
      (failureEnv scenarioFailedUndoOnTop () 2 "boom")).2.2.calls = [2, 1] := by
  decide

/-- C17 (nil map): `NewSaga` leaves the map `nil` and the first run leaves it `nil`; every
later `ExecuteTransaction` returns the already-executed error and calls nothing; the first
`ExecuteTransaction` panics instead of returning if and only if some `Compensate` call it makes
returns an error; the panic is the write to the `nil` map, and when it happens the call log
ends with that failing `Compensate` call and the `GetName` call of the same participant, every
`Compensate` call before it having succeeded: the fault is at the first failing `Compensate`
and no `Compensate` follows it. -/
theorem C17_nil_map_fault (P : List (Service σ ε)) (w : σ) :
    GetErrors (NewSaga P) = none ∧
    GetErrors (firstRun P w).saga = none ∧
    (∀ m, ExecuteTransaction (afterCalls P w (m + 1)).1 (afterCalls P w (m + 1)).2 =
      ⟨Outcome.returned (some Error.alreadyInExecute), (afterCalls P w (m + 1)).1,
        (afterCalls P w (m + 1)).2⟩) ∧
    ((∃ f, (firstRun P w).outcome = Outcome.panicked f) ↔
      ∃ i ce, Call.compensate i (some ce) ∈ (firstRun P w).env.calls) ∧
    (∀ f, (firstRun P w).outcome = Outcome.panicked f → f = Fault.nilMapWrite) ∧
    ((∃ f, (firstRun P w).outcome = Outcome.panicked f) →
      ∃ before i ce nm,
        (firstRun P w).env.calls =
          before ++ [Call.compensate i (some ce), Call.getName i nm] ∧
        ∀ j r, Call.compensate j r ∈ before → r = none) := by
  refine ⟨rfl, firstRun_errors P w, ?_, ?_⟩
  · intro m
    rw [afterCalls_succ]
    exact ExecuteTransaction_rejected (firstRun P w).saga (firstRun P w).env
      (ExecuteTransaction_isExecutable (NewSaga P) (Env.init w))
  rcases allSucceed_or_firstFailure P w with h | ⟨k, e, h⟩
  · rw [firstRun_allSucceed P w h]
    simp
  · rcases firstRun_trace P w k e h with ⟨h1, h2⟩ | ⟨L, j, ce, nm, h1, _, h3⟩
    · rw [h1, h2]
      simp [forwardCalls]
    · rw [h1, h3]
      refine ⟨?_, ?_, ?_⟩
      · constructor
        · intro _
          exact ⟨j + 1, ce, by simp⟩
        · intro _
          exact ⟨_, rfl⟩
      · intro f hf
        simpa using hf.symm
      · intro _
        refine ⟨forwardCalls k e ++ L.map (fun j => Call.compensate j none), j + 1, ce, nm,
          by simp, ?_⟩
        intro j' r hmem
        simp only [forwardCalls, List.mem_append, List.mem_map, List.mem_range,
          List.mem_singleton] at hmem
        rcases hmem with (⟨_, _, hc⟩ | hc) | ⟨_, _, hc⟩
        · exact absurd hc (by simp)
        · exact absurd hc (by simp)
        · simp only [Call.compensate.injEq] at hc
          exact hc.2.symm

/-- Scenario 3 is a run that panics, as the last part of `C17_nil_map_fault` supposes; the
failing `Compensate` call is `B.Compensate`. -/
theorem C17_nil_map_fault_witness :
    (∃ f, (firstRun scenarioDirtyRollback ()).outcome = Outcome.panicked f) ∧
    (∃ i ce, Call.compensate i (some ce) ∈ (firstRun scenarioDirtyRollback ()).env.calls) ∧
    ∃ before i ce nm,
      (firstRun scenarioDirtyRollback ()).env.calls =
        before ++ [Call.compensate i (some ce), Call.getName i nm] ∧
      ∀ j r, Call.compensate j r ∈ before → r = none :=
  have hfault : ∃ f, (firstRun scenarioDirtyRollback ()).outcome = Outcome.panicked f :=
    ⟨Fault.nilMapWrite, by decide⟩
  ⟨hfault, (C17_nil_map_fault scenarioDirtyRollback ()).2.2.2.1.1 hfault,
    (C17_nil_map_fault scenarioDirtyRollback ()).2.2.2.2.2 hfault⟩

/-- C18 (success-counter monotonicity): for a saga built by `NewSaga`, whatever the number `m`
of earlier `ExecuteTransaction` calls, the turns of the loops of the next call lead to its
result; at every turn `successfulTransfers` is at most `len(s.Service)`, so the increment
never leaves the range of the counter; from one turn to the next it never decreases, it
increases by exactly 1 at a turn whose `Transaction` call succeeds and is unchanged at every
other turn; in `compensate` it is not modified, and the value found there is the value the
call ends with. -/
theorem C18_success_counter_monotone (P : List (Service σ ε)) (w : σ) (m : Nat) :
    (∃ n, configAt (afterCalls P w m).1 (afterCalls P w m).2 n =
      Config.finished (ExecuteTransaction (afterCalls P w m).1 (afterCalls P w m).2)) ∧
    (∀ n, (configAt (afterCalls P w m).1 (afterCalls P w m).2 n).saga.successfulTransfers ≤
      (configAt (afterCalls P w m).1 (afterCalls P w m).2 n).saga.Service.length) ∧
    (∀ n, (configAt (afterCalls P w m).1 (afterCalls P w m).2 n).saga.successfulTransfers ≤
      (configAt (afterCalls P w m).1 (afterCalls P w m).2 (n + 1)).saga.successfulTransfers) ∧
    (∀ n, (configAt (afterCalls P w m).1 (afterCalls P w m).2 n).transactionSucceeds = true →
      (configAt (afterCalls P w m).1 (afterCalls P w m).2 (n + 1)).saga.successfulTransfers =
        (configAt (afterCalls P w m).1 (afterCalls P w m).2 n).saga.successfulTransfers + 1) ∧
    (∀ n, (configAt (afterCalls P w m).1 (afterCalls P w m).2 n).transactionSucceeds = false →
      (configAt (afterCalls P w m).1 (afterCalls P w m).2 (n + 1)).saga.successfulTransfers =
        (configAt (afterCalls P w m).1 (afterCalls P w m).2 n).saga.successfulTransfers) ∧
    (∀ n, (configAt (afterCalls P w m).1 (afterCalls P w m).2 n).inCompensate = true →
      (configAt (afterCalls P w m).1 (afterCalls P w m).2 (n + 1)).saga.successfulTransfers =
        (configAt (afterCalls P w m).1 (afterCalls P w m).2 n).saga.successfulTransfers ∧
      (ExecuteTransaction (afterCalls P w m).1 (afterCalls P w m).2).saga.successfulTransfers =
        (configAt (afterCalls P w m).1 (afterCalls P w m).2 n).saga.successfulTransfers) := by
  refine ⟨configAt_reaches _ _, ?_, ?_, ?_, ?_, ?_⟩
  · intro n
    exact configAt_counter_bounded _ _ (afterCalls_state P w m).1
      (afterCalls_counter_bounded P w m) n
  · intro n
    exact step_counter_le _
  · intro n h
    exact step_counter_transaction _ h
  · intro n h
    exact step_counter_other _ h
  · intro n h
    exact ⟨(step_settled _ (Or.inl h)).1, final_counter_of_inCompensate _ _ n h⟩

/-- In the first call of scenario 2 the first turn is a successful `Transaction` call, the
third a failing one, and after three turns the call is inside `compensate`, with the counter
at 2 to the end. -/
theorem C18_success_counter_monotone_witness :
    ((configAt (afterCalls scenarioThirdFails () 0).1 (afterCalls scenarioThirdFails () 0).2
        0).transactionSucceeds = true ∧
      (configAt (afterCalls scenarioThirdFails () 0).1 (afterCalls scenarioThirdFails () 0).2
        (0 + 1)).saga.successfulTransfers =
        (configAt (afterCalls scenarioThirdFails () 0).1 (afterCalls scenarioThirdFails () 0).2
          0).saga.successfulTransfers + 1) ∧
    ((configAt (afterCalls scenarioThirdFails () 0).1 (afterCalls scenarioThirdFails () 0).2
        2).transactionSucceeds = false ∧
      (configAt (afterCalls scenarioThirdFails () 0).1 (afterCalls scenarioThirdFails () 0).2
        (2 + 1)).saga.successfulTransfers =
        (configAt (afterCalls scenarioThirdFails () 0).1 (afterCalls scenarioThirdFails () 0).2
          2).saga.successfulTransfers) ∧
    ((configAt (afterCalls scenarioThirdFails () 0).1 (afterCalls scenarioThirdFails () 0).2
        3).inCompensate = true ∧
      (configAt (afterCalls scenarioThirdFails () 0).1 (afterCalls scenarioThirdFails () 0).2
        (3 + 1)).saga.successfulTransfers =
        (configAt (afterCalls scenarioThirdFails () 0).1 (afterCalls scenarioThirdFails () 0).2
          3).saga.successfulTransfers ∧
      (ExecuteTransaction (afterCalls scenarioThirdFails () 0).1
        (afterCalls scenarioThirdFails () 0).2).saga.successfulTransfers =
        (configAt (afterCalls scenarioThirdFails () 0).1 (afterCalls scenarioThirdFails () 0).2
          3).saga.successfulTransfers) :=
  ⟨⟨by decide, (C18_success_counter_monotone scenarioThirdFails () 0).2.2.2.1 0 (by decide)⟩,
    ⟨by decide, (C18_success_counter_monotone scenarioThirdFails () 0).2.2.2.2.1 2 (by decide)⟩,
    ⟨by decide, (C18_success_counter_monotone scenarioThirdFails () 0).2.2.2.2.2 3 (by decide)⟩⟩

/-- C19 (index safety of `compensate`): for a saga built by `NewSaga`, whatever the number `m`
of earlier `ExecuteTransaction` calls, the next call never panics on an index out of range,
and at each of its turns an index `i` used in `s.Service[i]` satisfies
`1 ≤ i ≤ successfulTransfers < len(s.Service)`. -/
theorem C19_compensate_index_safety (P : List (Service σ ε)) (w : σ) (m : Nat) :
    (ExecuteTransaction (afterCalls P w m).1 (afterCalls P w m).2).outcome ≠
      Outcome.panicked Fault.indexOutOfRange ∧
    ∀ n i, (configAt (afterCalls P w m).1 (afterCalls P w m).2 n).indexUsed = some i →
      1 ≤ i ∧
      i ≤ (configAt (afterCalls P w m).1 (afterCalls P w m).2 n).saga.successfulTransfers ∧
      (configAt (afterCalls P w m).1 (afterCalls P w m).2 n).saga.successfulTransfers <
        (configAt (afterCalls P w m).1 (afterCalls P w m).2 n).saga.Service.length := by
  constructor
  · cases m with
    | zero => exact firstRun_no_index_fault P w
    | succ m =>
      rw [afterCalls_succ]
      show (ExecuteTransaction (firstRun P w).saga (firstRun P w).env).outcome ≠ _
      rw [ExecuteTransaction_rejected (firstRun P w).saga (firstRun P w).env
        (ExecuteTransaction_isExecutable (NewSaga P) (Env.init w))]
      simp
  · intro n i hi
    have hinv := configAt_wellIndexed (afterCalls P w m).1 (afterCalls P w m).2
      (afterCalls_state P w m).1 n
    revert hi hinv
    cases configAt (afterCalls P w m).1 (afterCalls P w m).2 n with
    | forward l idx s env => intro hi; simp [Config.indexUsed] at hi
    | finished r => intro hi; simp [Config.indexUsed] at hi
    | compensating i' err s env =>
      cases i' with
      | zero => intro hi; simp [Config.indexUsed] at hi
      | succ i' =>
        intro hi hinv
        simp only [Config.indexUsed, Option.some.injEq] at hi
        obtain ⟨h1, h2⟩ := hinv
        subst hi
        exact ⟨by omega, h1, h2⟩

/-- In scenario 2 the first call uses index 2 at its fourth turn, as the second part of
`C19_compensate_index_safety` supposes. -/
theorem C19_compensate_index_safety_witness :
    (configAt (afterCalls scenarioThirdFails () 0).1 (afterCalls scenarioThirdFails () 0).2
      3).indexUsed = some 2 ∧
    1 ≤ 2 ∧
    2 ≤ (configAt (afterCalls scenarioThirdFails () 0).1 (afterCalls scenarioThirdFails () 0).2
      3).saga.successfulTransfers ∧
    (configAt (afterCalls scenarioThirdFails () 0).1 (afterCalls scenarioThirdFails () 0).2
      3).saga.successfulTransfers <
      (configAt (afterCalls scenarioThirdFails () 0).1 (afterCalls scenarioThirdFails () 0).2
        3).saga.Service.length :=
  ⟨by decide, (C19_compensate_index_safety scenarioThirdFails () 0).2 3 2 (by decide)⟩

/-- C20 (`GetErrors` is never observed non-empty): for every participant sequence, every
behaviour of the participants and every number `m` of `ExecuteTransaction` calls made on
`NewSaga(P)`, whether they return or not, `GetErrors` returns the `nil` mapping, which is
empty. -/
theorem C20_getErrors_always_empty (P : List (Service σ ε)) (w : σ) (m : Nat) :
    GetErrors (afterCalls P w m).1 = none ∧
    (GetErrors (afterCalls P w m).1).len = 0 := by
  have h : GetErrors (afterCalls P w m).1 = none := (afterCalls_state P w m).2
  rw [h]
  exact ⟨rfl, rfl⟩

end Properties

end SagaCoordinator
